import Mathlib

/-!
The allow-list state machine of `main.go` (tx)

A shallow embedding of the IRC moderation bot in `src/main.go`.

* The configuration (`Config`, `Channel`) is plain data.
* The pointer `*Channel` that the Go code passes around always points into
  `cfg.Channel`, so it is represented by the index of the channel in that slice.
* `channelOccupancy` (a `map[*Channel]map[string]bool`) is a list of maps, one per
  channel index; an index outside the list is a key missing from the outer map
  (a nil inner map).
* Everything the bot sends to the server is appended to `State.sent`, every
  attempt to write the configuration file is appended to `State.written`.
* Library code that is not part of the repository (the glob matcher, the regular
  expression compiled from the bot's nick, the file system) is a parameter, `Deps`;
  the concrete instances instantiate it with models of `go-glob` and of Go's `regexp`.
* A handler returns `none` where the Go code panics.
* The diagnostic lines printed on standard output are not part of the state.
-/

namespace Tx

/-! ## Data model -/

/-- The `Channel` struct. -/
structure Channel where
  Name : String
  ManageWhiteList : Bool
  WhiteListSelfJoin : Bool
  WhiteListNicks : List String
  WhiteListConnection : List String
  CleanWhiteList : Bool
  MinOperatingMode : Bool
deriving DecidableEq, Repr

/-- The `Config` struct. -/
structure Config where
  Nick : String
  NickPassword : String
  User : String
  UseTLS : Bool
  TLSSkipVerify : Bool
  Server : String
  ServerPassword : String
  Channel : List Tx.Channel
  Admins : List String
deriving DecidableEq, Repr

/-- The fields of `irc.Event` that the callbacks read. -/
structure Event where
  Code : String
  Nick : String
  Host : String
  Source : String
  Arguments : List String
deriving DecidableEq, Repr

/-- What the bot sends through `ircobj`: `Mode`, `Noticef`, `Privmsg`, `Join`. -/
inductive Command where
  | Mode (target : String) (modestring : List String)
  | Notice (target : String) (message : String)
  | Privmsg (target : String) (message : String)
  | Join (channel : String)
deriving DecidableEq, Repr

/-- A Go `map[string]bool` as an association list. -/
abbrev NickMap := List (String × Bool)

/-- Reading `m[k]`: the zero value `false` when the key is missing. -/
def mapGet (m : NickMap) (k : String) : Bool :=
  match m.lookup k with
  | some b => b
  | none => false

/-- The map after `delete(m, k)`. -/
def mapDelete (m : NickMap) (k : String) : NickMap :=
  m.filter (fun p => p.1 != k)

/-- The map after `m[k] = v`. -/
def mapSet (m : NickMap) (k : String) (v : Bool) : NickMap :=
  (k, v) :: mapDelete m k

/-- Code outside the repository that the handlers call.
* `Glob pattern subject` is `glob.Glob` of `github.com/ryanuber/go-glob`;
* `regexpReplace pattern src` is
  `regexp.MustCompile(pattern).ReplaceAllLiteralString(src, "")` of Go's `regexp`, with
  `none` when `MustCompile` panics;
* `write i cfg` is the error returned by the `i`-th call of `cfg.write(configFile)`
  (`none` is Go's `nil`). -/
structure Deps where
  Glob : String → String → Bool
  regexpReplace : String → String → Option String
  write : Nat → Config → Option String

/-- The global state of `main`: `conf`, `channelOccupancy`, and the trace of effects. -/
structure State where
  conf : Config
  channelOccupancy : List NickMap
  sent : List Command
  written : List Config
deriving DecidableEq, Repr

/-! ## Identity matcher and channel lookup -/

/-- Method `func (c *Channel) protectedNick(nick string) bool`. -/
def Channel.protectedNick (c : Channel) (nick : String) : Bool :=
  c.WhiteListNicks.any (fun v => nick == v)

/-- Method `func (c *Channel) protectedConn(conn string) bool`. -/
def Channel.protectedConn (d : Deps) (c : Channel) (conn : String) : Bool :=
  c.WhiteListConnection.any (fun v => d.Glob v conn)

/-- The loop of `findChannel`: index of the first channel whose `Name` is `name`. -/
def findChannelIdx (name : String) : List Channel → Option Nat
  | [] => none
  | v :: vs => if name = v.Name then some 0 else (findChannelIdx name vs).map (· + 1)

/-- Method `func (cfg *Config) findChannel(name string) *Channel`; `none` is `nil`. -/
def Config.findChannel (cfg : Config) (name : String) : Option Nat :=
  findChannelIdx name cfg.Channel

/-- Method `func (cfg *Config) adminUser(source string) bool`. -/
def Config.adminUser (d : Deps) (cfg : Config) (source : String) : Bool :=
  cfg.Admins.any (fun v => d.Glob v source)

/-! ## Allow-list store -/

/-- Method `func (cfg *Config) write(filename string) error`: the attempt is recorded with
the configuration it was given, the outcome comes from the file system. -/
def cfgWrite (d : Deps) (s : State) : State × Option String :=
  ({ s with written := s.written ++ [s.conf] }, d.write s.written.length s.conf)

/-- The channel `ch` with `WhiteListNicks` replaced by `l`. -/
def Channel.withNicks (ch : Channel) (l : List String) : Channel :=
  { ch with WhiteListNicks := l }

/-- Assignment to `c.WhiteListNicks` through the pointer `c = &cfg.Channel[c]`. -/
def setWhiteListNicks (s : State) (c : Nat) (l : List String) : State :=
  { s with conf := { s.conf with Channel := s.conf.Channel.modify (fun ch => ch.withNicks l) c } }

/-- Method `func (cfg *Config) addWhiteList(c *Channel, nick string) error`. -/
def addWhiteList (d : Deps) (s : State) (c : Nat) (nick : String) : State × Option String :=
  match s.conf.Channel[c]? with
  | none => (s, none)
  | some ch =>
    if ch.WhiteListNicks.any (fun v => v == nick) then (s, none)
    else cfgWrite d (setWhiteListNicks s c (ch.WhiteListNicks ++ [nick]))

/-- The loop of `removeWhiteList`: the first index `k` with `v == nick`. -/
def indexOfNick (nick : String) : List String → Option Nat
  | [] => none
  | v :: vs => if v = nick then some 0 else (indexOfNick nick vs).map (· + 1)

/-- Method `func (cfg *Config) removeWhiteList(c *Channel, nick string) error`. -/
def removeWhiteList (d : Deps) (s : State) (c : Nat) (nick : String) : State × Option String :=
  match s.conf.Channel[c]? with
  | none => (s, none)
  | some ch =>
    match indexOfNick nick ch.WhiteListNicks with
    | some k =>
      cfgWrite d (setWhiteListNicks s c
        (ch.WhiteListNicks.take k ++ ch.WhiteListNicks.drop (k + 1)))
    | none => (s, none)

/-! ## Effects and occupancy -/

/-- A command handed to the transport (`ircobj.Mode`, `ircobj.Noticef`, ...). -/
def send (s : State) (c : Command) : State :=
  { s with sent := s.sent ++ [c] }

/-- Reading `channelOccupancy[c][nick]`; a missing inner map reads as `false`. -/
def occGet (s : State) (c : Nat) (nick : String) : Bool :=
  match s.channelOccupancy[c]? with
  | some m => mapGet m nick
  | none => false

/-- The statement `delete(channelOccupancy[c], nick)`; a no-op on a missing inner map. -/
def occDelete (s : State) (c : Nat) (nick : String) : State :=
  { s with channelOccupancy := s.channelOccupancy.modify (fun m => mapDelete m nick) c }

/-- The statement `channelOccupancy[c][nick] = true`; assignment to a missing (nil)
inner map panics. -/
def occSet (s : State) (c : Nat) (nick : String) : Option State :=
  match s.channelOccupancy[c]? with
  | some m => some { s with channelOccupancy := s.channelOccupancy.set c (mapSet m nick true) }
  | none => none

/-- The loop `for k, v := range conf.Channel`, over the indices `ks` still to visit:
`v` is the copy of `conf.Channel[k]` taken when iteration `k` starts. -/
def forChannels (body : Nat → Channel → State → Option State) :
    List Nat → State → Option State
  | [], s => some s
  | k :: ks, s =>
    match s.conf.Channel[k]? with
    | none => none
    | some v =>
      match body k v s with
      | none => none
      | some s1 => forChannels body ks s1

/-- The loop `for k, v := range conf.Channel { body }`. -/
def rangeChannels (body : Nat → Channel → State → Option State) (s : State) : Option State :=
  forChannels body (List.range s.conf.Channel.length) s

/-! ## Regular expressions and string helpers -/

/-- The class `\s` of Go's `regexp`: tab, newline, form feed, carriage return, space. -/
def isSpace (c : Char) : Bool :=
  c = '\t' || c = '\n' || c = '\x0c' || c = '\r' || c = ' '

/-- The character class of `add_cmd`, `remove_cmd` and `nick_regex`: ASCII letters,
digits, underscore, minus, backslash, square brackets, braces, caret, backquote, bar. -/
def isNickChar (c : Char) : Bool :=
  ('a' ≤ c && c ≤ 'z') || ('A' ≤ c && c ≤ 'Z') || ('0' ≤ c && c ≤ '9') ||
  c = '_' || c = '-' || c = '\\' || c = '[' || c = ']' || c = '\x7b' || c = '\x7d' ||
  c = '^' || c = '\x60' || c = '|'

/-- The tail `([nick chars]+)\s*$` of the three patterns, matched at the start of `r`:
the longest run of nick characters, non-empty, with only white space after it. The
result is capture group 1. -/
def matchNickTail (r : List Char) : Option (List Char) :=
  let tok := r.takeWhile isNickChar
  if !tok.isEmpty && (r.dropWhile isNickChar).all isSpace then some tok else none

/-- The pattern `^kw\s+([nick chars]+)\s*$` and `FindStringSubmatch(message)[1]`;
`none` when `FindStringSubmatch` returns nil. -/
def matchCmd (kw : List Char) (message : List Char) : Option (List Char) :=
  if kw.isPrefixOf message then
    let r := message.drop kw.length
    let r1 := r.dropWhile isSpace
    if r1.length < r.length then matchNickTail r1 else none
  else none

/-- Capture group 1 of `add_cmd.FindStringSubmatch(message)`. -/
def add_cmd (message : String) : Option String :=
  (matchCmd "add".data message.data).map String.mk

/-- Capture group 1 of `remove_cmd.FindStringSubmatch(message)`. -/
def remove_cmd (message : String) : Option String :=
  (matchCmd "remove".data message.data).map String.mk

/-- The pattern `[@\+]?([nick chars]+)\s*$` matched at the start of `s`: the marker
is tried first, then the pattern without it. -/
def nickRegexAt (s : List Char) : Option (List Char) :=
  match s with
  | [] => none
  | c :: r =>
    if c = '@' || c = '+' then
      match matchNickTail r with
      | some t => some t
      | none => matchNickTail (c :: r)
    else matchNickTail (c :: r)

/-- The unanchored search of `nick_regex.FindStringSubmatch`: the leftmost start
position at which the pattern matches. -/
def nickRegexFind : List Char → Option (List Char)
  | [] => none
  | c :: r =>
    match nickRegexAt (c :: r) with
    | some t => some t
    | none => nickRegexFind r

/-- Capture group 1 of `nick_regex.FindStringSubmatch(v)`; `none` when `len(re) == 0`. -/
def nick_regex (v : String) : Option String :=
  (nickRegexFind v.data).map String.mk

/-- The function `strings.Split(s, " ")` on the characters of `s`. -/
def splitSpace : List Char → List (List Char)
  | [] => [[]]
  | c :: cs =>
    if c = ' ' then [] :: splitSpace cs
    else
      match splitSpace cs with
      | [] => [[c]]
      | w :: ws => (c :: w) :: ws

/-- The function `strings.HasPrefix(message, nick)`. -/
def hasPrefix (message : String) (nick : String) : Bool :=
  nick.data.isPrefixOf message.data

/-! ## Callbacks -/

/-- Callback `001`. -/
def on001 (s : State) : Option State :=
  let s1 := if s.conf.NickPassword ≠ "" then
      send s (.Privmsg "nickserv" ("identify " ++ s.conf.NickPassword)) else s
  some (s.conf.Channel.foldl (fun st v => send st (.Join v.Name)) s1)

/-- The loop over `users` in callback `353`. -/
def namesLoop (c : Nat) : List (List Char) → State → Option State
  | [], s => some s
  | v :: vs, s =>
    match nick_regex (String.mk v) with
    | some n =>
      match occSet s c n with
      | none => none
      | some s1 => namesLoop c vs s1
    | none => namesLoop c vs s

/-- Callback `353` (names-list reply). -/
def on353 (e : Event) (s : State) : Option State :=
  match e.Arguments[2]? with
  | none => none
  | some name =>
    match s.conf.findChannel name with
    | none => some s
    | some c =>
      match e.Arguments[3]? with
      | none => none
      | some users => namesLoop c (splitSpace users.data) s

/-- Callback `366` (end of names). -/
def on366 (e : Event) (s : State) : Option State :=
  match e.Arguments[1]? with
  | none => none
  | some name =>
    match s.conf.findChannel name with
    | none => some s
    | some c =>
      match s.conf.Channel[c]? with
      | none => none
      | some channel =>
        if channel.MinOperatingMode then
          some (send s (.Mode channel.Name ["-o", s.conf.Nick]))
        else
          some (send s (.Privmsg "chanserv" ("op " ++ channel.Name ++ " " ++ s.conf.Nick)))

/-- The text of the notice sent by the `JOIN` callback: the format string with both
`%s` replaced by `conf.Nick`. -/
def joinNotice (nick : String) : String :=
  "Hello, please send a private message to <" ++ nick ++
    "> if you would like to participate in the discussion. /msg " ++ nick ++ " hello"

/-- Callback `JOIN`. -/
def onJOIN (d : Deps) (e : Event) (s : State) : Option State :=
  match e.Arguments[0]? with
  | none => none
  | some name =>
    match s.conf.findChannel name with
    | none => some s
    | some c =>
      match occSet s c e.Nick with
      | none => none
      | some s1 =>
        match s1.conf.Channel[c]? with
        | none => none
        | some channel =>
          if channel.ManageWhiteList then
            if channel.protectedNick e.Nick || channel.protectedConn d e.Host then
              some (send s1 (.Mode channel.Name ["+e", e.Nick ++ "!*@*"]))
            else
              some (send s1 (.Notice e.Nick (joinNotice s1.conf.Nick)))
          else some s1

/-- Callback `KICK`. -/
def onKICK (d : Deps) (e : Event) (s : State) : Option State :=
  match e.Arguments[1]? with
  | none => none
  | some nick =>
    match e.Arguments[0]? with
    | none => none
    | some name =>
      match s.conf.findChannel name with
      | none => some s
      | some c =>
        let s1 := occDelete s c nick
        match s1.conf.Channel[c]? with
        | none => none
        | some channel =>
          if channel.ManageWhiteList then
            let s2 := (removeWhiteList d s1 c nick).1
            some (send s2 (.Mode channel.Name ["-e", nick ++ "!*@*"]))
          else some s1

/-- Callback `PART`. -/
def onPART (e : Event) (s : State) : Option State :=
  match e.Arguments[0]? with
  | none => none
  | some name =>
    match s.conf.findChannel name with
    | none => some s
    | some c =>
      let s1 := occDelete s c e.Nick
      match s1.conf.Channel[c]? with
      | none => none
      | some channel =>
        if channel.ManageWhiteList && channel.CleanWhiteList then
          some (send s1 (.Mode channel.Name ["-e", e.Nick ++ "!*@*"]))
        else some s1

/-- The body of the loop of callback `QUIT`. -/
def quitBody (e : Event) (k : Nat) (v : Channel) (s : State) : Option State :=
  let s1 := occDelete s k e.Nick
  if v.ManageWhiteList && v.CleanWhiteList then
    some (send s1 (.Mode v.Name ["-e", e.Nick ++ "!*@*"]))
  else some s1

/-- Callback `QUIT`. -/
def onQUIT (e : Event) (s : State) : Option State :=
  rangeChannels (quitBody e) s

/-- The occupancy rename at the head of the loop body of callback `NICK`. -/
def nickRename (e : Event) (k : Nat) (s : State) : Option State :=
  if occGet s k e.Nick then
    match e.Arguments[0]? with
    | none => none
    | some n => occSet (occDelete s k e.Nick) k n
  else some s

/-- The body of the loop of callback `NICK`. -/
def nickBody (d : Deps) (e : Event) (k : Nat) (v : Channel) (s : State) : Option State :=
  match nickRename e k s with
  | none => none
  | some s1 =>
    if v.protectedNick e.Nick || v.protectedConn d e.Host then
      let s2 := (removeWhiteList d s1 k e.Nick).1
      match e.Arguments[0]? with
      | none => none
      | some n =>
        let s3 := (addWhiteList d s2 k n).1
        some (send s3 (.Mode v.Name ["-e+e", e.Nick ++ "!*@*", n ++ "!*@*"]))
    else if v.CleanWhiteList then
      some (send s1 (.Mode v.Name ["-e", e.Nick ++ "!*@*"]))
    else some s1

/-- Callback `NICK`. -/
def onNICK (d : Deps) (e : Event) (s : State) : Option State :=
  rangeChannels (nickBody d e) s

/-- Method `func (cfg *Config) AdminREPL(...)`: prints a line, nothing else. -/
def AdminREPL (s : State) : State := s

/-- The pattern that `REPL` compiles: the raw strings `^\s*` and `[[:punct:]]*\s+`
around `cfg.Nick`, concatenated as they are. -/
def nickPattern (nick : String) : String :=
  "^\\s*" ++ nick ++ "[[:punct:]]*\\s+"

/-- Method `func (cfg *Config) REPL(ircobj, e, channel)`. -/
def REPL (d : Deps) (e : Event) (channel : Nat) (s : State) : Option State :=
  match e.Arguments[1]? with
  | none => none
  | some message0 =>
    match d.regexpReplace (nickPattern s.conf.Nick) message0 with
    | none => none
    | some message =>
      match s.conf.Channel[channel]? with
      | none => none
      | some ch =>
        match add_cmd message with
        | some nick =>
          some (send (addWhiteList d s channel nick).1 (.Mode ch.Name ["+e", nick ++ "!*@*"]))
        | none =>
          match remove_cmd message with
          | some nick =>
            some (send (removeWhiteList d s channel nick).1
              (.Mode ch.Name ["-e", nick ++ "!*@*"]))
          | none => some s

/-- The body of the loop in the direct-message branch of callback `PRIVMSG`. -/
def selfJoinBody (d : Deps) (e : Event) (k : Nat) (v : Channel) (s : State) : Option State :=
  if v.ManageWhiteList && v.WhiteListSelfJoin && !v.protectedNick e.Nick &&
      occGet s k e.Nick then
    some (send (addWhiteList d s k e.Nick).1 (.Mode v.Name ["+e", e.Nick ++ "!*@*"]))
  else some s

/-- Callback `PRIVMSG`. -/
def onPRIVMSG (d : Deps) (e : Event) (s : State) : Option State :=
  match e.Arguments[0]? with
  | none => none
  | some target =>
    match e.Arguments[1]? with
    | none => none
    | some message =>
      if target = s.conf.Nick then
        match rangeChannels (selfJoinBody d e) s with
        | none => none
        | some s1 => if s1.conf.adminUser d e.Source then some (AdminREPL s1) else some s1
      else
        match s.conf.findChannel target with
        | none => some s
        | some channel =>
          if hasPrefix message s.conf.Nick then REPL d e channel s else some s

/-- The dispatch of an event to the callback registered for its code. -/
def step (d : Deps) (e : Event) (s : State) : Option State :=
  if e.Code = "001" then on001 s
  else if e.Code = "353" then on353 e s
  else if e.Code = "366" then on366 e s
  else if e.Code = "JOIN" then onJOIN d e s
  else if e.Code = "KICK" then onKICK d e s
  else if e.Code = "PART" then onPART e s
  else if e.Code = "QUIT" then onQUIT e s
  else if e.Code = "NICK" then onNICK d e s
  else if e.Code = "PRIVMSG" then onPRIVMSG d e s
  else some s

/-- The state `main` starts the event loop with: an empty occupancy map per channel. -/
def initState (conf : Config) : State :=
  { conf := conf, channelOccupancy := conf.Channel.map (fun _ => []), sent := [], written := [] }

/-! ## Specification-side notions -/

/-- The allow-list of the channel at index `c` (empty when there is no such channel). -/
def whiteList (s : State) (c : Nat) : List String :=
  match s.conf.Channel[c]? with
  | some ch => ch.WhiteListNicks
  | none => []

/-- Every channel's `WhiteListNicks` is free of duplicates. -/
def NoDuplicates (s : State) : Prop :=
  ∀ ch ∈ s.conf.Channel, ch.WhiteListNicks.Nodup

/-! ## Models of the libraries, for the concrete instances

The theorems below hold for every `Deps`. The concrete instances need the answer of
the libraries at concrete arguments; these come from the two models of this section,
which follow the libraries' own sources and documentation, not `src/`. -/

/-- The function `strings.Split(s, "*")` on the characters of `s`. -/
def splitStar : List Char → List (List Char)
  | [] => [[]]
  | c :: cs =>
    if c = '*' then [] :: splitStar cs
    else
      match splitStar cs with
      | [] => [[c]]
      | w :: ws => (c :: w) :: ws

/-- The function `strings.Index(s, sub)`; `none` is `-1`. -/
def indexOfSub (sub : List Char) : List Char → Option Nat
  | [] => if sub.isEmpty then some 0 else none
  | c :: t => if sub.isPrefixOf (c :: t) then some 0 else (indexOfSub sub t).map (· + 1)

/-- The loop of `glob.Glob` over the parts before the last one, and its final test of
the last part; `first` tells whether the part at hand is `parts[0]`. -/
def globLoop (leadingGlob trailingGlob : Bool) : Bool → List (List Char) → List Char → Bool
  | _, [], _ => false
  | _, [last], subj => trailingGlob || last.isSuffixOf subj
  | first, part :: rest, subj =>
    match indexOfSub part subj with
    | none => false
    | some idx =>
      if first && !leadingGlob && idx != 0 then false
      else globLoop leadingGlob trailingGlob false rest (subj.drop (idx + part.length))

/-- Model of `glob.Glob(pattern, subj)` of `github.com/ryanuber/go-glob`: the pattern is
split at every `*`, the first part must start the subject (unless the pattern starts
with `*`), each middle part is searched from where the previous one ended, and the last
part must end the subject (unless the pattern ends with `*`). No other character is
special. -/
def goGlob (pattern : String) (subj : String) : Bool :=
  if pattern = "" then subj = pattern
  else if pattern = "*" then true
  else if (splitStar pattern.data).length = 1 then subj = pattern
  else globLoop (pattern.data.head? = some '*') (pattern.data.getLast? = some '*') true
    (splitStar pattern.data) subj.data

/-- Modelled from the spec: the glob semantics of the specification, in which `*`
matches any run of characters and `?` any single character, every other character
matches itself (case-sensitively), and the pattern must match the whole string. -/
def specGlob : List Char → List Char → Bool
  | [], s => s.isEmpty
  | c :: ps, s =>
    if c = '*' then s.tails.any (fun t => specGlob ps t)
    else
      match s with
      | [] => false
      | x :: xs => (c = '?' || c = x) && specGlob ps xs

/-- A regular expression after parsing: the empty expression, a character set (negated
or not) given by ranges, the assertion `^`, concatenation, alternation, and the greedy
repetitions `*` and `+`. -/
inductive Regex where
  | empty : Regex
  | set (neg : Bool) (ranges : List (Char × Char)) : Regex
  | bol : Regex
  | cat (a b : Regex) : Regex
  | alt (a b : Regex) : Regex
  | star (a : Regex) : Regex
  | plus (a : Regex) : Regex
deriving DecidableEq, Repr

/-- The outcome of parsing: a value, a syntax error of Go's `regexp/syntax` (on which
`MustCompile` panics), or a construct outside the fragment that is modelled here. -/
inductive Parse (α : Type) where
  | ok (a : α) : Parse α
  | invalid : Parse α
  | unsupported : Parse α
deriving DecidableEq, Repr

/-- The POSIX class `[:punct:]`: the ASCII punctuation. -/
def posixPunct : List (Char × Char) :=
  [('!', '/'), (':', '@'), ('[', '\x60'), ('\x7b', '~')]

/-- The Perl class `\s`: tab, newline, form feed, carriage return, space. -/
def perlSpace : List (Char × Char) :=
  [('\t', '\n'), ('\x0c', '\r'), (' ', ' ')]

/-- ASCII letters and digits. -/
def isWordChar (c : Char) : Bool :=
  ('a' ≤ c && c ≤ 'z') || ('A' ≤ c && c ≤ 'Z') || ('0' ≤ c && c ≤ '9')

/-- A backslash before an ASCII character that is neither letter nor digit stands for
that character. -/
def isEscapable (c : Char) : Bool :=
  c.toNat < 128 && !isWordChar c

/-- One character of a bracket expression (`parseClassChar`): a plain character or an
escaped punctuation character. The end of the pattern is a missing `]`. -/
def parseClassChar : List Char → Parse (Char × List Char)
  | [] => .invalid
  | c :: t =>
    if c = '\\' then
      match t with
      | [] => .invalid
      | c1 :: t1 => if isEscapable c1 then .ok (c1, t1) else .unsupported
    else .ok (c, t)

/-- The text before the first `:]` and the text after it. -/
def cutColonBracket : List Char → Option (List Char × List Char)
  | [] => none
  | c :: t =>
    if c = ':' && t.head? = some ']' then some ([], t.tail)
    else (cutColonBracket t).map (fun p => (c :: p.1, p.2))

/-- The loop of `parseClass` after `[` (and `^`): a `]` that is not the first item
closes the expression; an item is the named class `[:punct:]`, a character, or a range
`lo-hi` (an error when `hi < lo`). -/
def classLoop : Nat → Bool → List (Char × Char) → List Char →
    Parse (List (Char × Char) × List Char)
  | 0, _, _, _ => .unsupported
  | fuel + 1, first, acc, t =>
    if !first && t.head? = some ']' then .ok (acc, t.tail)
    else
      let named : Option (List Char × List Char) :=
        match t with
        | c0 :: c1 :: u =>
          if c0 = '[' && c1 = ':' && !u.isEmpty then cutColonBracket u else none
        | _ => none
      match named with
      | some (name, rest) =>
        if name = "punct".data then classLoop fuel false (acc ++ posixPunct) rest
        else .unsupported
      | none =>
        match parseClassChar t with
        | .invalid => .invalid
        | .unsupported => .unsupported
        | .ok (lo, t1) =>
          match t1 with
          | c0 :: c1 :: t2 =>
            if c0 = '-' && c1 != ']' then
              match parseClassChar (c1 :: t2) with
              | .invalid => .invalid
              | .unsupported => .unsupported
              | .ok (hi, t3) =>
                if hi < lo then .invalid
                else classLoop fuel false (acc ++ [(lo, hi)]) t3
            else classLoop fuel false (acc ++ [(lo, lo)]) t1
          | _ => classLoop fuel false (acc ++ [(lo, lo)]) t1

/-- A bracket expression, from the character after `[`. -/
def parseClass (t : List Char) : Parse (Regex × List Char) :=
  let neg : Bool := t.head? = some '^'
  let t1 := if neg then t.tail else t
  match classLoop (t1.length + 1) true [] t1 with
  | .invalid => .invalid
  | .unsupported => .unsupported
  | .ok (rs, rest) => .ok (.set neg rs, rest)

/-- The concatenation of the pieces of one alternative. -/
def mkCat : List Regex → Regex
  | [] => .empty
  | [a] => a
  | a :: as => .cat a (mkCat as)

/-- The alternation of the alternatives, the first one preferred. -/
def mkAlt : List Regex → Regex
  | [] => .empty
  | [a] => a
  | a :: as => .alt a (mkAlt as)

/-- The expression that matches the character `c`. -/
def literalChar (c : Char) : Regex :=
  .set false [(c, c)]

/-- The loop of the parser over the pattern: `alts` are the finished alternatives, `cur`
the pieces of the current one (last first), `lastRepeat` tells whether the previous
token was a repetition operator. A repetition operator applies to the last piece only;
it is an error at the start of an alternative and after another repetition operator.
Outside the fragment: `?`, `(`, `)`, `.`, `$`, a brace before a digit, and a backslash
before a letter or digit other than `\s`. -/
def parseLoop : Nat → List Regex → List Regex → Bool → List Char → Parse Regex
  | 0, _, _, _, _ => .unsupported
  | fuel + 1, alts, cur, lastRepeat, t =>
    match t with
    | [] => .ok (mkAlt (alts ++ [mkCat cur.reverse]))
    | c :: r =>
      if c = '|' then parseLoop fuel (alts ++ [mkCat cur.reverse]) [] false r
      else if c = '^' then parseLoop fuel alts (.bol :: cur) false r
      else if c = '[' then
        match parseClass r with
        | .invalid => .invalid
        | .unsupported => .unsupported
        | .ok (a, r1) => parseLoop fuel alts (a :: cur) false r1
      else if c = '*' || c = '+' then
        if r.head? = some '?' then .unsupported
        else if lastRepeat then .invalid
        else
          match cur with
          | [] => .invalid
          | a :: cur1 =>
            parseLoop fuel alts ((if c = '*' then .star a else .plus a) :: cur1) true r
      else if c = '\\' then
        match r with
        | [] => .invalid
        | c1 :: r1 =>
          if c1 = 's' then parseLoop fuel alts (.set false perlSpace :: cur) false r1
          else if isEscapable c1 then parseLoop fuel alts (literalChar c1 :: cur) false r1
          else .unsupported
      else if c = '\x7b' then
        match r.head? with
        | some c1 =>
          if '0' ≤ c1 && c1 ≤ '9' then .unsupported
          else parseLoop fuel alts (literalChar c :: cur) false r
        | none => parseLoop fuel alts (literalChar c :: cur) false r
      else if c = '?' || c = '(' || c = ')' || c = '.' || c = '$' then .unsupported
      else parseLoop fuel alts (literalChar c :: cur) false r

/-- Model of `syntax.Parse(pattern, syntax.Perl)` on the fragment of the syntax that a
pattern made of `^`, `\s`, `*`, `+`, `[[:punct:]]` and characters of the nickname
alphabet can contain. -/
def goParse (pattern : String) : Parse Regex :=
  parseLoop (pattern.data.length + 1) [] [] false pattern.data

/-- Membership of the character `c` in a set. -/
def inSet (neg : Bool) (rs : List (Char × Char)) (c : Char) : Bool :=
  (rs.any (fun r => r.1 ≤ c && c ≤ r.2)) != neg

/-- The remainders after a greedy repetition of `body`: as many rounds as possible
first, each round consuming at least one character. -/
def starEnds (body : List Char → List (List Char)) : Nat → List Char → List (List Char)
  | 0, s => [s]
  | fuel + 1, s =>
    ((body s).filter (fun s1 => s1.length < s.length)).flatMap (starEnds body fuel) ++ [s]

/-- The remainders of `s` after a match of the expression at the start of `s`, in the
order of preference of a leftmost-first matcher; `total` is the length of the whole
text, so that `^` holds only where nothing has been consumed from it. -/
def Regex.ends (total : Nat) : Regex → List Char → List (List Char)
  | .empty, s => [s]
  | .set neg rs, s =>
    match s with
    | c :: t => if inSet neg rs c then [t] else []
    | [] => []
  | .bol, s => if s.length = total then [s] else []
  | .cat a b, s => (Regex.ends total a s).flatMap (Regex.ends total b)
  | .alt a b, s => Regex.ends total a s ++ Regex.ends total b s
  | .star a, s => starEnds (Regex.ends total a) s.length s
  | .plus a, s =>
    (Regex.ends total a s).flatMap (fun s1 => starEnds (Regex.ends total a) s1.length s1)

/-- The leftmost match in `s`: the text before it and the text after it. -/
def findMatch (r : Regex) (total : Nat) : List Char → Option (List Char × List Char)
  | [] => ((r.ends total []).head?).map (fun rest => ([], rest))
  | c :: t =>
    match (r.ends total (c :: t)).head? with
    | some rest => some ([], rest)
    | none => (findMatch r total t).map (fun p => (c :: p.1, p.2))

/-- The text `s` with every match deleted, the matches taken from left to right without
overlap; after an empty match the search resumes one character further. -/
def deleteAll (r : Regex) (total : Nat) : Nat → List Char → List Char
  | 0, s => s
  | fuel + 1, s =>
    match findMatch r total s with
    | none => s
    | some (pre, rest) =>
      if rest.length < (s.drop pre.length).length then pre ++ deleteAll r total fuel rest
      else
        match s.drop pre.length with
        | [] => s
        | c :: t => pre ++ c :: deleteAll r total fuel t

/-- Model of `regexp.MustCompile(pattern).ReplaceAllLiteralString(src, "")`: `none` when
the pattern does not compile (and, as a convention of this model, when it lies outside
the modelled fragment). -/
def goReplaceAll (pattern : String) (src : String) : Option String :=
  match goParse pattern with
  | .ok r => some (String.mk (deleteAll r src.data.length (src.data.length + 1) src.data))
  | .invalid => none
  | .unsupported => none

/-! ## Sample data and the per-channel summaries used in the statements -/

/-- The allow-list that `addWhiteList` leaves behind. -/
def addNick (nick : String) (l : List String) : List String :=
  if nick ∈ l then l else l ++ [nick]

/-- The libraries as modelled above, on a file system on which every write succeeds:
sample library behaviour for the concrete instances below. -/
def sampleDeps : Deps :=
  { Glob := goGlob
    regexpReplace := goReplaceAll
    write := fun _ _ => none }

/-- The library of `sampleDeps` on a file system where every write fails. -/
def failingDeps : Deps :=
  { sampleDeps with write := fun _ _ => some "permission denied" }

/-- A channel named `#test` that manages its allow-list `nicks`. -/
def testChannel (nicks : List String) : Channel :=
  { Name := "#test", ManageWhiteList := true, WhiteListSelfJoin := true,
    WhiteListNicks := nicks, WhiteListConnection := [], CleanWhiteList := true,
    MinOperatingMode := false }

/-- A configuration for the bot `botnick` with the given channels. -/
def testConfig (channels : List Channel) : Config :=
  { Nick := "botnick", NickPassword := "", User := "tx", UseTLS := false,
    TLSSkipVerify := false, Server := "irc.example.net:6667", ServerPassword := "",
    Channel := channels, Admins := [] }

/-- The start state of the bot on the single channel `#test` with allow-list `nicks`. -/
def testState (nicks : List String) : State :=
  initState (testConfig [testChannel nicks])

/-- Every configured channel has its occupancy map, as `main` creates them before the
event loop starts. -/
def WellFormed (s : State) : Prop :=
  s.channelOccupancy.length = s.conf.Channel.length

/-- The text `t` occurs inside the text `text`. -/
def Contains (text : String) (t : String) : Prop :=
  ∃ pre post : String, text = pre ++ t ++ post

/-- An event with code `JOIN`: `nick` (connecting from `host`) joins `channel`. -/
def joinEvent (nick : String) (host : String) (channel : String) : Event :=
  { Code := "JOIN", Nick := nick, Host := host, Source := nick ++ "!" ++ nick ++ "@" ++ host,
    Arguments := [channel] }

/-- The commands that an iteration of a loop over the channels sends for the channel at
index `j`, when they are `fcmd v m` for the channel `v` and its occupancy map `m`. -/
def cmdsAt (fcmd : Channel → Option NickMap → List Command) (s : State) (j : Nat) :
    List Command :=
  match s.conf.Channel[j]? with
  | some v => fcmd v (s.channelOccupancy[j]?)
  | none => []

/-- The commands that the `QUIT` callback sends for the channel `v` when `nick` quits. -/
def quitCommands (nick : String) (v : Channel) : List Command :=
  if v.ManageWhiteList && v.CleanWhiteList then [Command.Mode v.Name ["-e", nick ++ "!*@*"]]
  else []

/-- The old nick of a Nick change is protected in the channel `v`, by nick or by
connection. -/
def nickProtected (d : Deps) (e : Event) (v : Channel) : Bool :=
  v.protectedNick e.Nick || v.protectedConn d e.Host

/-- The channel `v` after the `NICK` callback handled the change of `e.Nick` to `n`. -/
def nickChannel (d : Deps) (e : Event) (n : String) (v : Channel) : Channel :=
  if nickProtected d e v then v.withNicks (addNick n (v.WhiteListNicks.erase e.Nick)) else v

/-- The occupancy map `m` after the `NICK` callback handled the change of `e.Nick` to `n`. -/
def nickOccupancy (e : Event) (n : String) (m : NickMap) : NickMap :=
  if mapGet m e.Nick then mapSet (mapDelete m e.Nick) n true else m

/-- The commands that the `NICK` callback sends for the channel `v` on the change of
`e.Nick` to `n`. -/
def nickCommands (d : Deps) (e : Event) (n : String) (v : Channel) : List Command :=
  if nickProtected d e v then [Command.Mode v.Name ["-e+e", e.Nick ++ "!*@*", n ++ "!*@*"]]
  else if v.CleanWhiteList then [Command.Mode v.Name ["-e", e.Nick ++ "!*@*"]]
  else []

/-- The channel or nick that a command is addressed to. -/
def Command.target : Command → String
  | .Mode t _ => t
  | .Notice t _ => t
  | .Privmsg t _ => t
  | .Join c => c

/-- An event with code `QUIT`: `nick` leaves the network. -/
def quitEvent (nick : String) : Event :=
  { Code := "QUIT", Nick := nick, Host := "example.com",
    Source := nick ++ "!" ++ nick ++ "@example.com", Arguments := ["bye"] }

/-- An event with code `NICK`: `old` (connecting from `host`) renames itself to `new`. -/
def nickEvent (old : String) (host : String) (new : String) : Event :=
  { Code := "NICK", Nick := old, Host := host, Source := old ++ "!" ++ old ++ "@" ++ host,
    Arguments := [new] }

/-- A property of the state that each primitive step of the handlers preserves:
sending a command, setting and deleting an occupancy entry, `addWhiteList` and
`removeWhiteList`. -/
structure Preserved (P : State → Prop) : Prop where
  onSend : ∀ s c, P s → P (send s c)
  onSet : ∀ s c n s1, occSet s c n = some s1 → P s → P s1
  onDelete : ∀ s c n, P s → P (occDelete s c n)
  onAdd : ∀ d s c n, P s → P (addWhiteList d s c n).1
  onRemove : ∀ d s c n, P s → P (removeWhiteList d s c n).1

/-- The condition under which the direct-message branch of `PRIVMSG` adds `nick` to the
channel `v` whose occupancy map is `om` (`none`: no map). -/
def selfJoinEligible (nick : String) (v : Channel) (om : Option NickMap) : Bool :=
  v.ManageWhiteList && v.WhiteListSelfJoin && !v.protectedNick nick &&
    (match om with
     | some m => mapGet m nick
     | none => false)

/-- The channel `v` after a direct message of `nick` to the bot. -/
def selfJoinChannel (nick : String) (v : Channel) (om : Option NickMap) : Channel :=
  if selfJoinEligible nick v om then v.withNicks (v.WhiteListNicks ++ [nick]) else v

/-- The commands sent for the channel `v` on a direct message of `nick` to the bot. -/
def selfJoinCommands (nick : String) (v : Channel) (om : Option NickMap) : List Command :=
  if selfJoinEligible nick v om then [Command.Mode v.Name ["+e", nick ++ "!*@*"]] else []

/-- An event with code `PRIVMSG`: `nick` sends `message` to `target`. -/
def privmsgEvent (nick : String) (target : String) (message : String) : Event :=
  { Code := "PRIVMSG", Nick := nick, Host := "example.com",
    Source := nick ++ "!" ++ nick ++ "@example.com", Arguments := [target, message] }

/-- The bot on the single channel `#test` with allow-list `nicks` and occupancy `occ`. -/
def testStateWith (nicks : List String) (occ : NickMap) : State :=
  { testState nicks with channelOccupancy := [occ] }

/-- The nickname alphabet in the words of the specification: ASCII letters, digits and
the characters `_ - \ [ ] { } ^` backquote and `|`. -/
def IsTokenChar (c : Char) : Prop :=
  ('a' ≤ c ∧ c ≤ 'z') ∨ ('A' ≤ c ∧ c ≤ 'Z') ∨ ('0' ≤ c ∧ c ≤ '9') ∨
    c ∈ ['_', '-', '\\', '[', ']', '\x7b', '\x7d', '^', '\x60', '|']

/-- The text `message` is a command in the words of the specification: exactly the
keyword `kw`, one or more white-space characters, the non-empty token `t` over the
nickname alphabet, then zero or more white-space characters. -/
def IsCommand (kw : String) (t : String) (message : String) : Prop :=
  ∃ w1 w2 : List Char, message.data = kw.data ++ w1 ++ t.data ++ w2 ∧
    w1 ≠ [] ∧ (∀ c ∈ w1, isSpace c = true) ∧
    t.data ≠ [] ∧ (∀ c ∈ t.data, IsTokenChar c) ∧ (∀ c ∈ w2, isSpace c = true)

/-- The bot named `nick` on the single channel `#test` with allow-list `nicks`. -/
def testStateNick (nick : String) (nicks : List String) : State :=
  initState { testConfig [testChannel nicks] with Nick := nick }

/-- The bot on the single channel `#test` with allow-list `nicks`, the channel having
`ManageWhiteList` unset (and `CleanWhiteList` set). -/
def unmanagedState (nicks : List String) : State :=
  initState (testConfig [{ testChannel nicks with ManageWhiteList := false }])

/-- An event with code `353`: the names-list reply `names` for `channel`. -/
def namesEvent (channel : String) (names : String) : Event :=
  { Code := "353", Nick := "", Host := "", Source := "irc.example.net",
    Arguments := ["botnick", "=", channel, names] }

/-- The pattern whose parts between the `*` are `parts`. -/
def joinStar : List (List Char) → List Char
  | [] => []
  | [p] => p
  | p :: q :: r => p ++ '*' :: joinStar (q :: r)

/-- Glob matching with `*` as the only wildcard, as a function: `*` matches any run of
characters, every other character matches the same character only, and the pattern
must match the whole string. -/
def starGlob : List Char → List Char → Bool
  | [], s => s.isEmpty
  | c :: ps, s =>
    if c = '*' then s.tails.any (fun t => starGlob ps t)
    else
      match s with
      | [] => false
      | x :: xs => c = x && starGlob ps xs

/-- Glob matching with `*` as the only wildcard, as a relation between the pattern and
the whole string: the empty pattern matches the empty string; a character other than
`*` matches that same character (so matching is case-sensitive and `?` is an ordinary
character); `*` matches any run of characters. -/
inductive GlobMatch : List Char → List Char → Prop where
  | nil : GlobMatch [] []
  | char (c : Char) (ps xs : List Char) :
    c ≠ '*' → GlobMatch ps xs → GlobMatch (c :: ps) (c :: xs)
  | star (ps run rest : List Char) : GlobMatch ps rest → GlobMatch ('*' :: ps) (run ++ rest)

/-- Modelled from the spec: the connection identity of the sender of an event, the
`user@host` part of its source `nick!user@host`. -/
def connectionIdentity (e : Event) : String :=
  String.mk ((e.Source.data.dropWhile (fun c => c != '!')).drop 1)

/-- The bot on the single channel `#test` with allow-list `nicks` and the connection
patterns `conns`. -/
def connState (nicks : List String) (conns : List String) : State :=
  initState (testConfig [{ testChannel nicks with WhiteListConnection := conns }])

/-! # Theorems -/

/-! ## Lemmas on the allow-list store -/

theorem indexOfNick_eq_none {nick : String} {l : List String} :
    indexOfNick nick l = none ↔ nick ∉ l := by
  induction l with
  | nil => simp [indexOfNick]
  | cons v vs ih =>
    by_cases hv : v = nick
    · simp [indexOfNick, hv]
    · have hv2 : ¬ nick = v := fun h => hv h.symm
      simp [indexOfNick, hv, hv2, ih]

theorem indexOfNick_some_split {nick : String} {l : List String} {k : Nat}
    (h : indexOfNick nick l = some k) :
    l.take k ++ l.drop (k + 1) = l.erase nick ∧
      ∃ a b, l = a ++ nick :: b ∧ nick ∉ a ∧ a.length = k := by
  induction l generalizing k with
  | nil => simp [indexOfNick] at h
  | cons v vs ih =>
    by_cases hv : v = nick
    · simp [indexOfNick, hv] at h
      subst h; subst hv
      exact ⟨by simp, [], vs, by simp⟩
    · simp only [indexOfNick, hv, if_false, Option.map_eq_some'] at h
      obtain ⟨j, hj, rfl⟩ := h
      obtain ⟨h1, a, b, hab, hna, hlen⟩ := ih hj
      refine ⟨?_, v :: a, b, ?_, ?_, ?_⟩
      · have hb : (v == nick) = false := by simpa using hv
        simp [List.erase_cons, hb, h1]
      · simp [hab]
      · simp only [List.mem_cons, not_or]
        exact ⟨fun h => hv h.symm, hna⟩
      · simp [hlen]

theorem any_eq_nick {nick : String} {l : List String} :
    l.any (fun v => v == nick) = true ↔ nick ∈ l := by
  simp [List.any_eq_true]

theorem protectedNick_iff {c : Channel} {nick : String} :
    c.protectedNick nick = true ↔ nick ∈ c.WhiteListNicks := by
  simp [Channel.protectedNick, List.any_eq_true]

theorem modify_same {α : Type} (f : α → α) (l : List α) (c : Nat)
    (h : ∀ a, l[c]? = some a → f a = a) : l.modify f c = l := by
  apply List.ext_getElem?
  intro m
  rw [List.getElem?_modify]
  cases hm : l[m]? with
  | none => simp
  | some a =>
    by_cases hc : c = m
    · subst hc
      simp [h a hm]
    · simp [hc]

theorem modify_congr_at {α : Type} (f g : α → α) (l : List α) (c : Nat)
    (h : ∀ a, l[c]? = some a → f a = g a) : l.modify f c = l.modify g c := by
  apply List.ext_getElem?
  intro m
  rw [List.getElem?_modify, List.getElem?_modify]
  cases hm : l[m]? with
  | none => simp
  | some a =>
    by_cases hc : c = m
    · subst hc
      simp [h a hm]
    · simp [hc]

theorem nodup_addNick {nick : String} {l : List String} (h : l.Nodup) :
    (addNick nick l).Nodup := by
  unfold addNick
  split
  · exact h
  · rename_i hn
    rw [List.nodup_append]
    refine ⟨h, List.nodup_singleton _, ?_⟩
    intro x hx hx2
    simp only [List.mem_singleton] at hx2
    subst hx2
    exact hn hx

theorem addWhiteList_of_none {d : Deps} {s : State} {c : Nat} {nick : String}
    (hc : s.conf.Channel[c]? = none) : addWhiteList d s c nick = (s, none) := by
  simp only [addWhiteList, hc]

theorem addWhiteList_of_mem {d : Deps} {s : State} {c : Nat} {nick : String} {ch : Channel}
    (hc : s.conf.Channel[c]? = some ch) (hn : nick ∈ ch.WhiteListNicks) :
    addWhiteList d s c nick = (s, none) := by
  simp only [addWhiteList, hc, any_eq_nick.2 hn, if_true]

theorem addWhiteList_of_not_mem {d : Deps} {s : State} {c : Nat} {nick : String} {ch : Channel}
    (hc : s.conf.Channel[c]? = some ch) (hn : nick ∉ ch.WhiteListNicks) :
    addWhiteList d s c nick = cfgWrite d (setWhiteListNicks s c (ch.WhiteListNicks ++ [nick])) := by
  have hany : ¬ ch.WhiteListNicks.any (fun v => v == nick) = true :=
    fun h => hn (any_eq_nick.1 h)
  simp only [addWhiteList, hc, hany, if_false]
  rfl

theorem removeWhiteList_of_none {d : Deps} {s : State} {c : Nat} {nick : String}
    (hc : s.conf.Channel[c]? = none) : removeWhiteList d s c nick = (s, none) := by
  simp only [removeWhiteList, hc]

theorem removeWhiteList_of_not_mem {d : Deps} {s : State} {c : Nat} {nick : String}
    {ch : Channel} (hc : s.conf.Channel[c]? = some ch) (hn : nick ∉ ch.WhiteListNicks) :
    removeWhiteList d s c nick = (s, none) := by
  simp only [removeWhiteList, hc, indexOfNick_eq_none.2 hn]

theorem removeWhiteList_of_mem {d : Deps} {s : State} {c : Nat} {nick : String}
    {ch : Channel} (hc : s.conf.Channel[c]? = some ch) (hn : nick ∈ ch.WhiteListNicks) :
    removeWhiteList d s c nick =
      cfgWrite d (setWhiteListNicks s c (ch.WhiteListNicks.erase nick)) := by
  cases hk : indexOfNick nick ch.WhiteListNicks with
  | none => exact absurd hn (indexOfNick_eq_none.1 hk)
  | some k =>
    simp only [removeWhiteList, hc, hk, (indexOfNick_some_split hk).1]

/-- The channels after `addWhiteList`; nothing else of the state changes but the
record of writes. -/
theorem addWhiteList_fst (d : Deps) (s : State) (c : Nat) (nick : String) :
    (addWhiteList d s c nick).1.conf.Channel =
        s.conf.Channel.modify (fun ch => ch.withNicks (addNick nick ch.WhiteListNicks)) c ∧
      (addWhiteList d s c nick).1.conf.Nick = s.conf.Nick ∧
      (addWhiteList d s c nick).1.channelOccupancy = s.channelOccupancy ∧
      (addWhiteList d s c nick).1.sent = s.sent := by
  cases hc : s.conf.Channel[c]? with
  | none =>
    rw [addWhiteList_of_none hc, modify_same _ _ _ (by simp [hc])]
    exact ⟨rfl, rfl, rfl, rfl⟩
  | some ch =>
    by_cases hn : nick ∈ ch.WhiteListNicks
    · rw [addWhiteList_of_mem hc hn, modify_same]
      · exact ⟨rfl, rfl, rfl, rfl⟩
      · intro a ha
        rw [hc] at ha
        cases ha
        simp [addNick, hn, Channel.withNicks]
    · rw [addWhiteList_of_not_mem hc hn]
      refine ⟨?_, rfl, rfl, rfl⟩
      simp only [cfgWrite, setWhiteListNicks]
      apply modify_congr_at
      intro a ha
      rw [hc] at ha
      cases ha
      simp [addNick, hn]

/-- The channels after `removeWhiteList`; nothing else of the state changes but the
record of writes. -/
theorem removeWhiteList_fst (d : Deps) (s : State) (c : Nat) (nick : String) :
    (removeWhiteList d s c nick).1.conf.Channel =
        s.conf.Channel.modify (fun ch => ch.withNicks (ch.WhiteListNicks.erase nick)) c ∧
      (removeWhiteList d s c nick).1.conf.Nick = s.conf.Nick ∧
      (removeWhiteList d s c nick).1.channelOccupancy = s.channelOccupancy ∧
      (removeWhiteList d s c nick).1.sent = s.sent := by
  cases hc : s.conf.Channel[c]? with
  | none =>
    rw [removeWhiteList_of_none hc, modify_same _ _ _ (by simp [hc])]
    exact ⟨rfl, rfl, rfl, rfl⟩
  | some ch =>
    by_cases hn : nick ∈ ch.WhiteListNicks
    · rw [removeWhiteList_of_mem hc hn]
      refine ⟨?_, rfl, rfl, rfl⟩
      simp only [cfgWrite, setWhiteListNicks]
      apply modify_congr_at
      intro a ha
      rw [hc] at ha
      cases ha
      rfl
    · rw [removeWhiteList_of_not_mem hc hn, modify_same]
      · exact ⟨rfl, rfl, rfl, rfl⟩
      · intro a ha
        rw [hc] at ha
        cases ha
        simp [List.erase_of_not_mem hn, Channel.withNicks]

theorem chan_addWhiteList (d : Deps) (s : State) (c : Nat) (nick : String) (j : Nat) :
    (addWhiteList d s c nick).1.conf.Channel[j]? =
      (s.conf.Channel[j]?).map
        (fun ch => if c = j then ch.withNicks (addNick nick ch.WhiteListNicks) else ch) := by
  rw [(addWhiteList_fst d s c nick).1, List.getElem?_modify]
  rfl

theorem chan_removeWhiteList (d : Deps) (s : State) (c : Nat) (nick : String) (j : Nat) :
    (removeWhiteList d s c nick).1.conf.Channel[j]? =
      (s.conf.Channel[j]?).map
        (fun ch => if c = j then ch.withNicks (ch.WhiteListNicks.erase nick) else ch) := by
  rw [(removeWhiteList_fst d s c nick).1, List.getElem?_modify]
  rfl

theorem whiteList_of_chan {s : State} {c : Nat} {ch : Channel}
    (hc : s.conf.Channel[c]? = some ch) : whiteList s c = ch.WhiteListNicks := by
  simp only [whiteList, hc]

theorem whiteList_addWhiteList_same {d : Deps} {s : State} {c : Nat} {nick : String}
    {ch : Channel} (hc : s.conf.Channel[c]? = some ch) :
    whiteList (addWhiteList d s c nick).1 c = addNick nick ch.WhiteListNicks := by
  have h := chan_addWhiteList d s c nick c
  rw [hc] at h
  simp only [Option.map_some', if_true] at h
  rw [whiteList_of_chan h]
  rfl

theorem whiteList_removeWhiteList_same (d : Deps) (s : State) (c : Nat) (nick : String) :
    whiteList (removeWhiteList d s c nick).1 c = (whiteList s c).erase nick := by
  have h := chan_removeWhiteList d s c nick c
  cases hc : s.conf.Channel[c]? with
  | none =>
    rw [hc] at h
    simp only [Option.map_none'] at h
    simp [whiteList, hc, h]
  | some ch =>
    rw [hc] at h
    simp only [Option.map_some', if_true] at h
    rw [whiteList_of_chan h, whiteList_of_chan hc]
    rfl

theorem count_addNick {nick : String} {l : List String} (h : l.Nodup) :
    (addNick nick l).count nick = 1 := by
  have hm : nick ∈ addNick nick l := by
    unfold addNick
    split
    · assumption
    · simp
  exact List.count_eq_one_of_mem (nodup_addNick h) hm

/-! ## The allow-list store: add and remove -/

/-- C2: on a channel whose allow-list has no duplicates, adding `nick` twice leaves
exactly one occurrence of `nick` and the second call changes nothing (it returns nil
and leaves the whole state, the record of writes included, as it was); adding, removing
and adding again also leaves exactly one occurrence. -/
theorem addWhiteList_twice_once (d : Deps) (s : State) (c : Nat) (nick : String)
    (ch : Channel) (hc : s.conf.Channel[c]? = some ch) (hnd : ch.WhiteListNicks.Nodup) :
    addWhiteList d (addWhiteList d s c nick).1 c nick = ((addWhiteList d s c nick).1, none) ∧
      (whiteList (addWhiteList d (addWhiteList d s c nick).1 c nick).1 c).count nick = 1 ∧
      (whiteList (addWhiteList d (removeWhiteList d (addWhiteList d s c nick).1 c nick).1
        c nick).1 c).count nick = 1 := by
  have h1 := chan_addWhiteList d s c nick c
  rw [hc] at h1
  simp only [Option.map_some', if_true] at h1
  have hnd1 : (addNick nick ch.WhiteListNicks).Nodup := nodup_addNick hnd
  have hmem : nick ∈ (ch.withNicks (addNick nick ch.WhiteListNicks)).WhiteListNicks := by
    show nick ∈ addNick nick ch.WhiteListNicks
    unfold addNick
    split
    · assumption
    · simp
  have h2 : addWhiteList d (addWhiteList d s c nick).1 c nick
      = ((addWhiteList d s c nick).1, none) := addWhiteList_of_mem h1 hmem
  refine ⟨h2, ?_, ?_⟩
  · rw [h2, whiteList_of_chan h1]
    exact count_addNick hnd
  · have h3 := chan_removeWhiteList d (addWhiteList d s c nick).1 c nick c
    rw [h1] at h3
    simp only [Option.map_some', if_true] at h3
    rw [whiteList_addWhiteList_same h3]
    apply count_addNick
    exact List.Nodup.erase nick hnd1

/-- C2, a concrete instance: `#test` with allow-list `alice`, nickname `bob`. -/
theorem addWhiteList_twice_once_witness :
    addWhiteList sampleDeps (addWhiteList sampleDeps (testState ["alice"]) 0 "bob").1 0 "bob"
        = ((addWhiteList sampleDeps (testState ["alice"]) 0 "bob").1, none) ∧
      (whiteList (addWhiteList sampleDeps
        (addWhiteList sampleDeps (testState ["alice"]) 0 "bob").1 0 "bob").1 0).count "bob" = 1 ∧
      (whiteList (addWhiteList sampleDeps (removeWhiteList sampleDeps
        (addWhiteList sampleDeps (testState ["alice"]) 0 "bob").1 0 "bob").1
        0 "bob").1 0).count "bob" = 1 :=
  addWhiteList_twice_once sampleDeps (testState ["alice"]) 0 "bob" (testChannel ["alice"])
    (by decide) (by decide)

/-- C3: `removeWhiteList` leaves the allow-list with the first entry equal to `nick`
deleted and the other entries in their order (if the list is `a ++ nick :: b` with
`nick` not in `a`, the new list is `a ++ b`); when `nick` is absent the state is
unchanged, so nothing is written, and the result is nil. -/
theorem removeWhiteList_first_match (d : Deps) (s : State) (c : Nat) (nick : String) :
    whiteList (removeWhiteList d s c nick).1 c = (whiteList s c).erase nick ∧
      (∀ a b, whiteList s c = a ++ nick :: b → nick ∉ a →
        whiteList (removeWhiteList d s c nick).1 c = a ++ b) ∧
      (nick ∉ whiteList s c → removeWhiteList d s c nick = (s, none)) := by
  refine ⟨whiteList_removeWhiteList_same d s c nick, ?_, ?_⟩
  · intro a b hab hna
    rw [whiteList_removeWhiteList_same, hab]
    rw [List.erase_append_right _ hna]
    simp
  · intro hn
    cases hc : s.conf.Channel[c]? with
    | none => exact removeWhiteList_of_none hc
    | some ch =>
      rw [whiteList_of_chan hc] at hn
      exact removeWhiteList_of_not_mem hc hn

/-- C3, concrete instances: removing `a` from `b, a, c, a` gives `b, c, a`; removing the
absent `z` changes nothing and returns nil, also on a failing file system. -/
theorem removeWhiteList_first_match_witness :
    whiteList (removeWhiteList sampleDeps (testState ["b", "a", "c", "a"]) 0 "a").1 0
        = ["b"] ++ ["c", "a"] ∧
      removeWhiteList failingDeps (testState ["b", "a", "c", "a"]) 0 "z"
        = (testState ["b", "a", "c", "a"], none) :=
  ⟨(removeWhiteList_first_match sampleDeps (testState ["b", "a", "c", "a"]) 0 "a").2.1
      ["b"] ["c", "a"] (by decide) (by decide),
    (removeWhiteList_first_match failingDeps (testState ["b", "a", "c", "a"]) 0 "z").2.2
      (by decide)⟩

/-- C4: when `nick` is absent, `addWhiteList` leaves the allow-list with `nick` appended
at the end whatever the outcome of the write, attempts exactly one write (of the updated
configuration) and returns the error of that write, so it fails exactly when the write
fails; when `nick` is present the state is unchanged, nothing is written and the result
is nil. -/
theorem addWhiteList_appends (d : Deps) (s : State) (c : Nat) (nick : String)
    (ch : Channel) (hc : s.conf.Channel[c]? = some ch) :
    (nick ∉ ch.WhiteListNicks →
        whiteList (addWhiteList d s c nick).1 c = ch.WhiteListNicks ++ [nick] ∧
        (addWhiteList d s c nick).1.written
          = s.written ++ [(addWhiteList d s c nick).1.conf] ∧
        (addWhiteList d s c nick).2
          = d.write s.written.length (addWhiteList d s c nick).1.conf ∧
        ((addWhiteList d s c nick).2 ≠ none ↔
          d.write s.written.length (addWhiteList d s c nick).1.conf ≠ none)) ∧
      (nick ∈ ch.WhiteListNicks → addWhiteList d s c nick = (s, none)) := by
  refine ⟨?_, fun hn => addWhiteList_of_mem hc hn⟩
  intro hn
  have hw : whiteList (addWhiteList d s c nick).1 c = ch.WhiteListNicks ++ [nick] := by
    rw [whiteList_addWhiteList_same hc]
    simp [addNick, hn]
  have he := addWhiteList_of_not_mem (d := d) hc hn
  refine ⟨hw, ?_, ?_, ?_⟩
  · rw [he]; rfl
  · rw [he]; rfl
  · rw [he]; exact Iff.rfl

/-- C4, concrete instances: on a file system where every write fails, adding `bob` to
the allow-list `alice` still gives `alice, bob` and returns the error; adding `alice`
again changes nothing and returns nil. -/
theorem addWhiteList_appends_witness :
    (whiteList (addWhiteList failingDeps (testState ["alice"]) 0 "bob").1 0 = ["alice"] ++ ["bob"]
        ∧ (addWhiteList failingDeps (testState ["alice"]) 0 "bob").2 = some "permission denied")
      ∧ addWhiteList failingDeps (testState ["alice"]) 0 "alice" = (testState ["alice"], none) :=
  ⟨⟨((addWhiteList_appends failingDeps (testState ["alice"]) 0 "bob" (testChannel ["alice"])
        (by decide)).1 (by decide)).1,
      by decide⟩,
    (addWhiteList_appends failingDeps (testState ["alice"]) 0 "alice" (testChannel ["alice"])
      (by decide)).2 (by decide)⟩

/-! ## The no-duplicate invariant -/

theorem noDuplicates_iff {s : State} :
    NoDuplicates s ↔
      ∀ (j : Nat) (ch : Channel), s.conf.Channel[j]? = some ch → ch.WhiteListNicks.Nodup := by
  unfold NoDuplicates
  constructor
  · intro h j ch hj
    exact h ch (List.mem_iff_getElem?.2 ⟨j, hj⟩)
  · intro h ch hch
    obtain ⟨j, hj⟩ := List.mem_iff_getElem?.1 hch
    exact h j ch hj

theorem noDuplicates_addWhiteList {d : Deps} {s : State} {c : Nat} {nick : String}
    (h : NoDuplicates s) : NoDuplicates (addWhiteList d s c nick).1 := by
  rw [noDuplicates_iff] at h ⊢
  intro j ch hj
  rw [chan_addWhiteList] at hj
  cases hs : s.conf.Channel[j]? with
  | none => rw [hs] at hj; simp at hj
  | some ch0 =>
    rw [hs] at hj
    simp only [Option.map_some', Option.some.injEq] at hj
    subst hj
    split
    · exact nodup_addNick (h j ch0 hs)
    · exact h j ch0 hs

theorem noDuplicates_removeWhiteList {d : Deps} {s : State} {c : Nat} {nick : String}
    (h : NoDuplicates s) : NoDuplicates (removeWhiteList d s c nick).1 := by
  rw [noDuplicates_iff] at h ⊢
  intro j ch hj
  rw [chan_removeWhiteList] at hj
  cases hs : s.conf.Channel[j]? with
  | none => rw [hs] at hj; simp at hj
  | some ch0 =>
    rw [hs] at hj
    simp only [Option.map_some', Option.some.injEq] at hj
    subst hj
    split
    · exact List.Nodup.erase nick (h j ch0 hs)
    · exact h j ch0 hs

theorem noDuplicates_of_conf {s s1 : State} (hc : s1.conf = s.conf) (h : NoDuplicates s) :
    NoDuplicates s1 := by
  unfold NoDuplicates at h ⊢
  rw [hc]
  exact h

theorem occSet_conf {s s1 : State} {c : Nat} {nick : String} (h : occSet s c nick = some s1) :
    s1.conf = s.conf ∧ s1.sent = s.sent ∧ s1.written = s.written := by
  unfold occSet at h
  split at h
  · cases h
    exact ⟨rfl, rfl, rfl⟩
  · cases h

theorem forChannels_preserves {P : State → Prop}
    {body : Nat → Channel → State → Option State}
    (hbody : ∀ k v s s1, s.conf.Channel[k]? = some v → P s → body k v s = some s1 → P s1) :
    ∀ (ks : List Nat) (s s1 : State), P s → forChannels body ks s = some s1 → P s1 := by
  intro ks
  induction ks with
  | nil =>
    intro s s1 hp h
    simp only [forChannels, Option.some.injEq] at h
    subst h
    exact hp
  | cons k ks ih =>
    intro s s1 hp h
    simp only [forChannels] at h
    split at h
    · cases h
    · rename_i v hv
      split at h
      · cases h
      · rename_i s2 hb
        exact ih s2 s1 (hbody k v s s2 hv hp hb) h

theorem nickRename_conf {e : Event} {k : Nat} {s s1 : State}
    (hs : nickRename e k s = some s1) :
    s1.conf = s.conf ∧ s1.sent = s.sent ∧ s1.written = s.written := by
  unfold nickRename at hs
  split at hs
  · split at hs
    · cases hs
    · obtain ⟨h1, h2, h3⟩ := occSet_conf hs
      exact ⟨h1, h2, h3⟩
  · cases hs
    exact ⟨rfl, rfl, rfl⟩

theorem on001_preserves {P : State → Prop} (hP : Preserved P) {s s1 : State} (h : P s)
    (hs : on001 s = some s1) : P s1 := by
  unfold on001 at hs
  simp only [Option.some.injEq] at hs
  subst hs
  have hfold : ∀ (l : List Channel) (t : State), P t →
      P (l.foldl (fun st v => send st (.Join v.Name)) t) := by
    intro l
    induction l with
    | nil => intro t ht; exact ht
    | cons v vs ih => intro t ht; exact ih _ (hP.onSend _ _ ht)
  apply hfold
  split
  · exact hP.onSend _ _ h
  · exact h

theorem namesLoop_preserves {P : State → Prop} (hP : Preserved P) (c : Nat) :
    ∀ (vs : List (List Char)) (s s1 : State), P s → namesLoop c vs s = some s1 → P s1 := by
  intro vs
  induction vs with
  | nil =>
    intro s s1 hp h
    simp only [namesLoop, Option.some.injEq] at h
    subst h
    exact hp
  | cons v vs ih =>
    intro s s1 hp h
    simp only [namesLoop] at h
    split at h
    · split at h
      · cases h
      · rename_i s2 hs2
        exact ih s2 s1 (hP.onSet _ _ _ _ hs2 hp) h
    · exact ih s s1 hp h

theorem on353_preserves {P : State → Prop} (hP : Preserved P) {e : Event} {s s1 : State}
    (h : P s) (hs : on353 e s = some s1) : P s1 := by
  unfold on353 at hs
  split at hs
  · cases hs
  · split at hs
    · cases hs; exact h
    · split at hs
      · cases hs
      · exact namesLoop_preserves hP _ _ _ _ h hs

theorem on366_preserves {P : State → Prop} (hP : Preserved P) {e : Event} {s s1 : State}
    (h : P s) (hs : on366 e s = some s1) : P s1 := by
  unfold on366 at hs
  split at hs
  · cases hs
  · split at hs
    · cases hs; exact h
    · split at hs
      · cases hs
      · split at hs <;> (cases hs; exact hP.onSend _ _ h)

theorem onJOIN_preserves {P : State → Prop} (hP : Preserved P) {d : Deps} {e : Event}
    {s s1 : State} (h : P s) (hs : onJOIN d e s = some s1) : P s1 := by
  unfold onJOIN at hs
  split at hs
  · cases hs
  · split at hs
    · cases hs; exact h
    · split at hs
      · cases hs
      · rename_i s2 hs2
        have h2 : P s2 := hP.onSet _ _ _ _ hs2 h
        split at hs
        · cases hs
        · split at hs
          · split at hs <;> (cases hs; exact hP.onSend _ _ h2)
          · cases hs; exact h2

theorem onKICK_preserves {P : State → Prop} (hP : Preserved P) {d : Deps} {e : Event}
    {s s1 : State} (h : P s) (hs : onKICK d e s = some s1) : P s1 := by
  unfold onKICK at hs
  split at hs
  · cases hs
  · split at hs
    · cases hs
    · split at hs
      · cases hs; exact h
      · simp only at hs
        split at hs
        · cases hs
        · split at hs
          · cases hs
            exact hP.onSend _ _ (hP.onRemove _ _ _ _ (hP.onDelete _ _ _ h))
          · cases hs; exact hP.onDelete _ _ _ h

theorem onPART_preserves {P : State → Prop} (hP : Preserved P) {e : Event} {s s1 : State}
    (h : P s) (hs : onPART e s = some s1) : P s1 := by
  unfold onPART at hs
  split at hs
  · cases hs
  · split at hs
    · cases hs; exact h
    · simp only at hs
      split at hs
      · cases hs
      · split at hs
        · cases hs; exact hP.onSend _ _ (hP.onDelete _ _ _ h)
        · cases hs; exact hP.onDelete _ _ _ h

theorem quitBody_preserves {P : State → Prop} (hP : Preserved P) {e : Event} {k : Nat}
    {v : Channel} {s s1 : State} (h : P s) (hs : quitBody e k v s = some s1) : P s1 := by
  unfold quitBody at hs
  simp only at hs
  split at hs
  · cases hs; exact hP.onSend _ _ (hP.onDelete _ _ _ h)
  · cases hs; exact hP.onDelete _ _ _ h

theorem nickRename_preserves {P : State → Prop} (hP : Preserved P) {e : Event} {k : Nat}
    {s s1 : State} (h : P s) (hs : nickRename e k s = some s1) : P s1 := by
  unfold nickRename at hs
  split at hs
  · split at hs
    · cases hs
    · exact hP.onSet _ _ _ _ hs (hP.onDelete _ _ _ h)
  · cases hs; exact h

theorem nickBody_preserves {P : State → Prop} (hP : Preserved P) {d : Deps} {e : Event}
    {k : Nat} {v : Channel} {s s1 : State} (h : P s) (hs : nickBody d e k v s = some s1) :
    P s1 := by
  unfold nickBody at hs
  split at hs
  · cases hs
  · rename_i s2 hs2
    have h2 : P s2 := nickRename_preserves hP h hs2
    split at hs
    · simp only at hs
      split at hs
      · cases hs
      · cases hs
        exact hP.onSend _ _ (hP.onAdd _ _ _ _ (hP.onRemove _ _ _ _ h2))
    · split at hs
      · cases hs; exact hP.onSend _ _ h2
      · cases hs; exact h2

theorem selfJoinBody_preserves {P : State → Prop} (hP : Preserved P) {d : Deps} {e : Event}
    {k : Nat} {v : Channel} {s s1 : State} (h : P s)
    (hs : selfJoinBody d e k v s = some s1) : P s1 := by
  unfold selfJoinBody at hs
  split at hs
  · cases hs
    exact hP.onSend _ _ (hP.onAdd _ _ _ _ h)
  · cases hs; exact h

theorem REPL_preserves {P : State → Prop} (hP : Preserved P) {d : Deps} {e : Event}
    {c : Nat} {s s1 : State} (h : P s) (hs : REPL d e c s = some s1) : P s1 := by
  unfold REPL at hs
  split at hs
  · cases hs
  · split at hs
    · cases hs
    · split at hs
      · cases hs
      · split at hs
        · cases hs
          exact hP.onSend _ _ (hP.onAdd _ _ _ _ h)
        · split at hs
          · cases hs
            exact hP.onSend _ _ (hP.onRemove _ _ _ _ h)
          · cases hs; exact h

theorem onPRIVMSG_preserves {P : State → Prop} (hP : Preserved P) {d : Deps} {e : Event}
    {s s1 : State} (h : P s) (hs : onPRIVMSG d e s = some s1) : P s1 := by
  unfold onPRIVMSG at hs
  split at hs
  · cases hs
  · split at hs
    · cases hs
    · split at hs
      · split at hs
        · cases hs
        · rename_i s2 hs2
          have h2 : P s2 :=
            forChannels_preserves (P := P)
              (fun k v s s1 _ hp hb => selfJoinBody_preserves hP hp hb) _ s s2 h hs2
          split at hs <;> (cases hs; exact h2)
      · split at hs
        · cases hs; exact h
        · split at hs
          · exact REPL_preserves hP h hs
          · cases hs; exact h

/-- A property that the primitive steps preserve is preserved by the handling of every
event. -/
theorem step_preserves {P : State → Prop} (hP : Preserved P) {d : Deps} {e : Event}
    {s s1 : State} (h : P s) (hs : step d e s = some s1) : P s1 := by
  unfold step at hs
  split at hs
  · exact on001_preserves hP h hs
  split at hs
  · exact on353_preserves hP h hs
  split at hs
  · exact on366_preserves hP h hs
  split at hs
  · exact onJOIN_preserves hP h hs
  split at hs
  · exact onKICK_preserves hP h hs
  split at hs
  · exact onPART_preserves hP h hs
  split at hs
  · exact forChannels_preserves (P := P)
      (fun k v s s1 _ hp hb => quitBody_preserves hP hp hb) _ s s1 h hs
  split at hs
  · exact forChannels_preserves (P := P)
      (fun k v s s1 _ hp hb => nickBody_preserves hP hp hb) _ s s1 h hs
  split at hs
  · exact onPRIVMSG_preserves hP h hs
  · cases hs; exact h

theorem preserved_noDuplicates : Preserved NoDuplicates where
  onSend := fun _ _ h => h
  onSet := fun _ _ _ _ hs h => noDuplicates_of_conf (occSet_conf hs).1 h
  onDelete := fun _ _ _ h => h
  onAdd := fun _ _ _ _ h => noDuplicates_addWhiteList h
  onRemove := fun _ _ _ _ h => noDuplicates_removeWhiteList h

theorem step_preserves_noDuplicates {d : Deps} {e : Event} {s s1 : State}
    (h : NoDuplicates s) (hs : step d e s = some s1) : NoDuplicates s1 :=
  step_preserves preserved_noDuplicates h hs

theorem initState_wellFormed (conf : Config) : WellFormed (initState conf) := by
  simp [WellFormed, initState]

theorem occSet_length {s s1 : State} {c : Nat} {nick : String}
    (h : occSet s c nick = some s1) :
    s1.channelOccupancy.length = s.channelOccupancy.length := by
  unfold occSet at h
  split at h
  · cases h
    simp
  · cases h

theorem preserved_wellFormed : Preserved WellFormed where
  onSend := fun _ _ h => h
  onSet := fun s c n s1 hs h => by
    unfold WellFormed at h ⊢
    rw [occSet_length hs, (occSet_conf hs).1]
    exact h
  onDelete := fun s c n h => by
    unfold WellFormed at h ⊢
    simp only [occDelete, List.length_modify]
    exact h
  onAdd := fun d s c n h => by
    unfold WellFormed at h ⊢
    rw [(addWhiteList_fst d s c n).1, (addWhiteList_fst d s c n).2.2.1, List.length_modify]
    exact h
  onRemove := fun d s c n h => by
    unfold WellFormed at h ⊢
    rw [(removeWhiteList_fst d s c n).1, (removeWhiteList_fst d s c n).2.2.1,
      List.length_modify]
    exact h

/-- The occupancy maps that `main` creates stay in place: handling an event keeps the
state well-formed. -/
theorem step_preserves_wellFormed {d : Deps} {e : Event} {s s1 : State}
    (h : WellFormed s) (hs : step d e s = some s1) : WellFormed s1 :=
  step_preserves preserved_wellFormed h hs

/-- The dispatch of `step`: each event code runs its callback. -/
theorem step_dispatch (d : Deps) (e : Event) (s : State) :
    (e.Code = "JOIN" → step d e s = onJOIN d e s) ∧
      (e.Code = "KICK" → step d e s = onKICK d e s) ∧
      (e.Code = "PART" → step d e s = onPART e s) ∧
      (e.Code = "QUIT" → step d e s = onQUIT e s) ∧
      (e.Code = "NICK" → step d e s = onNICK d e s) ∧
      (e.Code = "PRIVMSG" → step d e s = onPRIVMSG d e s) ∧
      (e.Code = "353" → step d e s = on353 e s) ∧
      (e.Code = "366" → step d e s = on366 e s) ∧
      (e.Code = "001" → step d e s = on001 s) := by
  refine ⟨?_, ?_, ?_, ?_, ?_, ?_, ?_, ?_, ?_⟩ <;> intro h <;> simp [step, h]

/-- C1: from a state in which no channel's allow-list has a duplicate, `addWhiteList`
and `removeWhiteList` (for every channel, nickname and outcome of the write) and the
handling of every event (every code, so JOIN, PART, KICK, QUIT, NICK and both branches
of PRIVMSG among them) lead to a state in which no channel's allow-list has a
duplicate. -/
theorem noDuplicates_invariant (d : Deps) (e : Event) (s : State) (h : NoDuplicates s) :
    (∀ c nick, NoDuplicates (addWhiteList d s c nick).1) ∧
      (∀ c nick, NoDuplicates (removeWhiteList d s c nick).1) ∧
      (∀ s1, step d e s = some s1 → NoDuplicates s1) :=
  ⟨fun _ _ => noDuplicates_addWhiteList h, fun _ _ => noDuplicates_removeWhiteList h,
    fun _ hs => step_preserves_noDuplicates h hs⟩

/-- C1, a concrete instance: `alice`, on the allow-list of `#test`, renames herself to
`bob` while every write fails; the handler returns and the allow-list is `bob`. -/
theorem noDuplicates_invariant_witness :
    NoDuplicates (testState ["alice"]) ∧
      NoDuplicates (addWhiteList failingDeps (testState ["alice"]) 0 "alice").1 ∧
      NoDuplicates (removeWhiteList failingDeps (testState ["alice"]) 0 "alice").1 ∧
      ∃ s1, step failingDeps
          { Code := "NICK", Nick := "alice", Host := "example.com",
            Source := "alice!a@example.com", Arguments := ["bob"] }
          (testState ["alice"]) = some s1 ∧ whiteList s1 0 = ["bob"] ∧ NoDuplicates s1 :=
  have h0 : NoDuplicates (testState ["alice"]) := by
    simp [NoDuplicates, testState, initState, testConfig, testChannel]
  have h := noDuplicates_invariant failingDeps
    { Code := "NICK", Nick := "alice", Host := "example.com",
      Source := "alice!a@example.com", Arguments := ["bob"] } (testState ["alice"]) h0
  ⟨h0, h.1 0 "alice", h.2.1 0 "alice", _, rfl, by decide, h.2.2 _ rfl⟩

/-! ## Occupancy maps -/

theorem lookup_filter_ne (m : NickMap) (k k1 : String) (h : k1 ≠ k) :
    (m.filter (fun p => p.1 != k)).lookup k1 = m.lookup k1 := by
  induction m with
  | nil => rfl
  | cons p m ih =>
    obtain ⟨a, b⟩ := p
    by_cases ha : a = k
    · subst ha
      have h1 : (k1 == a) = false := by simpa using h
      simp [List.filter_cons, List.lookup_cons, h1, ih]
    · have h2 : (a != k) = true := by simpa using ha
      simp only [List.filter_cons, h2, if_true, List.lookup_cons, ih]

theorem lookup_filter_self (m : NickMap) (k : String) :
    (m.filter (fun p => p.1 != k)).lookup k = none := by
  induction m with
  | nil => rfl
  | cons p m ih =>
    obtain ⟨a, b⟩ := p
    by_cases ha : a = k
    · subst ha
      simp [List.filter_cons, ih]
    · have h2 : (a != k) = true := by simpa using ha
      have h3 : (k == a) = false := by simpa using fun h : k = a => ha h.symm
      simp only [List.filter_cons, h2, if_true, List.lookup_cons, h3, ih]

theorem mapGet_mapDelete_self (m : NickMap) (k : String) : mapGet (mapDelete m k) k = false := by
  simp only [mapGet, mapDelete, lookup_filter_self]

theorem mapGet_mapDelete_ne (m : NickMap) (k k1 : String) (h : k1 ≠ k) :
    mapGet (mapDelete m k) k1 = mapGet m k1 := by
  simp only [mapGet, mapDelete, lookup_filter_ne m k k1 h]

theorem mapGet_mapSet_self (m : NickMap) (k : String) (v : Bool) :
    mapGet (mapSet m k v) k = v := by
  simp [mapGet, mapSet]

theorem mapGet_mapSet_ne (m : NickMap) (k k1 : String) (v : Bool) (h : k1 ≠ k) :
    mapGet (mapSet m k v) k1 = mapGet m k1 := by
  have h1 : (k1 == k) = false := by simpa using h
  simp only [mapGet, mapSet, mapDelete, List.lookup_cons, h1, lookup_filter_ne m k k1 h]

theorem occDelete_get (s : State) (c : Nat) (nick : String) (j : Nat) :
    (occDelete s c nick).channelOccupancy[j]? =
      if j = c then (s.channelOccupancy[c]?).map (fun m => mapDelete m nick)
      else s.channelOccupancy[j]? := by
  simp only [occDelete, List.getElem?_modify]
  by_cases h : j = c
  · subst h
    simp
  · have h2 : ¬ c = j := fun h3 => h h3.symm
    simp [h, h2]

theorem occSet_get {s s1 : State} {c : Nat} {nick : String} (h : occSet s c nick = some s1)
    (j : Nat) :
    s1.channelOccupancy[j]? =
      if j = c then (s.channelOccupancy[c]?).map (fun m => mapSet m nick true)
      else s.channelOccupancy[j]? := by
  unfold occSet at h
  split at h
  · rename_i m hm
    cases h
    by_cases hj : j = c
    · subst hj
      have hlt : j < s.channelOccupancy.length := by
        rcases List.getElem?_eq_some_iff.1 hm with ⟨hl, _⟩
        exact hl
      simp [hm, List.getElem?_set, hlt]
    · have h2 : ¬ c = j := fun h3 => hj h3.symm
      simp [hj, List.getElem?_set, h2]
  · cases h

theorem occSet_isSome {s : State} {c : Nat} (nick : String)
    (h : c < s.channelOccupancy.length) : ∃ s1, occSet s c nick = some s1 := by
  unfold occSet
  cases hm : s.channelOccupancy[c]? with
  | none =>
    rw [List.getElem?_eq_none_iff] at hm
    omega
  | some m => exact ⟨_, rfl⟩

theorem occGet_occDelete_self (s : State) (c : Nat) (nick : String) :
    occGet (occDelete s c nick) c nick = false := by
  unfold occGet
  rw [occDelete_get]
  cases h : s.channelOccupancy[c]? <;> simp [mapGet_mapDelete_self]

theorem occGet_occDelete_ne (s : State) (c : Nat) (nick : String) (j : Nat) (n : String)
    (h : j ≠ c ∨ n ≠ nick) : occGet (occDelete s c nick) j n = occGet s j n := by
  unfold occGet
  rw [occDelete_get]
  by_cases hj : j = c
  · subst hj
    have hn : n ≠ nick := by
      rcases h with h | h
      · exact absurd rfl h
      · exact h
    cases hs : s.channelOccupancy[j]? <;> simp [mapGet_mapDelete_ne _ _ _ hn]
  · simp [hj]

theorem occGet_occSet_self {s s1 : State} {c : Nat} {nick : String}
    (h : occSet s c nick = some s1) : occGet s1 c nick = true := by
  have hg := occSet_get h c
  unfold occSet at h
  split at h
  · rename_i m hm
    unfold occGet
    rw [hg, hm]
    simp [mapGet_mapSet_self]
  · cases h

theorem occGet_occSet_ne {s s1 : State} {c : Nat} {nick : String}
    (h : occSet s c nick = some s1) (j : Nat) (n : String) (hne : j ≠ c ∨ n ≠ nick) :
    occGet s1 j n = occGet s j n := by
  unfold occGet
  rw [occSet_get h]
  by_cases hj : j = c
  · subst hj
    have hn : n ≠ nick := by
      rcases hne with h | h
      · exact absurd rfl h
      · exact h
    cases hs : s.channelOccupancy[j]? <;> simp [mapGet_mapSet_ne _ _ _ _ hn]
  · simp [hj]

theorem findChannelIdx_some {name : String} {l : List Channel} {c : Nat}
    (h : findChannelIdx name l = some c) : ∃ ch, l[c]? = some ch ∧ ch.Name = name := by
  induction l generalizing c with
  | nil => simp [findChannelIdx] at h
  | cons v vs ih =>
    by_cases hv : name = v.Name
    · simp only [findChannelIdx, hv, if_true, Option.some.injEq] at h
      subst h
      exact ⟨v, by simp, hv.symm⟩
    · simp only [findChannelIdx, hv, if_false, Option.map_eq_some'] at h
      obtain ⟨j, hj, rfl⟩ := h
      obtain ⟨ch, h1, h2⟩ := ih hj
      exact ⟨ch, by simpa using h1, h2⟩

/-! ## Join, Kick, Part -/

/-- C5, as stated, fails: `carol` joins `#test` from `carol!carol@example.com`. Her
connection identity `carol@example.com` matches the pattern `*@example.com` of the
channel, under the glob semantics of the specification and under the matcher of the
library alike; yet the handler sends no mode request, and one notice, because it
matches the patterns against the host `example.com` alone. -/
theorem onJOIN_identity_counterexample :
    connectionIdentity (joinEvent "carol" "example.com" "#test") = "carol@example.com" ∧
      specGlob "*@example.com".data "carol@example.com".data = true ∧
      goGlob "*@example.com" "carol@example.com" = true ∧
      (onJOIN sampleDeps (joinEvent "carol" "example.com" "#test")
          (connState [] ["*@example.com"])).map (fun s1 => s1.sent)
        = some [Command.Notice "carol" (joinNotice "botnick")] := by
  decide

/-- C5, amended: a Join on a configured channel with `ManageWhiteList` set marks the
joining nick present in that channel's occupancy, writes nothing and leaves the
configuration alone; if the nick is on the allow-list or the host of the event
(`e.Host`, not the `user@host` identity) matches a `WhiteListConnection` pattern,
exactly one command is sent, the mode request `+e nick!*@*` on the channel; otherwise
exactly one command is sent, a notice to the joining nick whose text contains the bot's
nick. -/
theorem onJOIN_managed (d : Deps) (e : Event) (s : State) (name : String) (c : Nat)
    (ch : Channel) (hwf : WellFormed s) (ha : e.Arguments[0]? = some name)
    (hf : s.conf.findChannel name = some c) (hc : s.conf.Channel[c]? = some ch)
    (hm : ch.ManageWhiteList = true) :
    ∃ s1, onJOIN d e s = some s1 ∧ occGet s1 c e.Nick = true ∧
      s1.conf = s.conf ∧ s1.written = s.written ∧
      ((e.Nick ∈ ch.WhiteListNicks ∨ ch.protectedConn d e.Host = true) →
        s1.sent = s.sent ++ [Command.Mode name ["+e", e.Nick ++ "!*@*"]]) ∧
      (¬ (e.Nick ∈ ch.WhiteListNicks ∨ ch.protectedConn d e.Host = true) →
        ∃ text, s1.sent = s.sent ++ [Command.Notice e.Nick text] ∧
          Contains text s.conf.Nick) := by
  have hlt : c < s.channelOccupancy.length := by
    rw [hwf]
    exact (List.getElem?_eq_some_iff.1 hc).1
  obtain ⟨s2, hs2⟩ := occSet_isSome e.Nick hlt
  obtain ⟨hconf, hsent, hwr⟩ := occSet_conf hs2
  have hc2 : s2.conf.Channel[c]? = some ch := by rw [hconf]; exact hc
  have hname : ch.Name = name := by
    obtain ⟨ch1, h1, h2⟩ := findChannelIdx_some hf
    rw [hc] at h1
    cases h1
    exact h2
  have hocc : occGet s2 c e.Nick = true := occGet_occSet_self hs2
  by_cases hp : e.Nick ∈ ch.WhiteListNicks ∨ ch.protectedConn d e.Host = true
  · have hb : (ch.protectedNick e.Nick || ch.protectedConn d e.Host) = true := by
      rw [Bool.or_eq_true, protectedNick_iff]
      exact hp
    refine ⟨send s2 (.Mode ch.Name ["+e", e.Nick ++ "!*@*"]), ?_, hocc, hconf, hwr, ?_, ?_⟩
    · simp only [onJOIN, ha, hf, hs2, hc2, hm, hb, if_true]
    · intro _
      simp only [send, hsent, hname]
    · intro hn
      exact absurd hp hn
  · have hb : ¬ (ch.protectedNick e.Nick || ch.protectedConn d e.Host) = true := by
      rw [Bool.or_eq_true, protectedNick_iff]
      exact hp
    refine ⟨send s2 (.Notice e.Nick (joinNotice s2.conf.Nick)), ?_, hocc, hconf, hwr, ?_, ?_⟩
    · simp [onJOIN, ha, hf, hs2, hc2, hm, hb]
    · intro hn
      exact absurd hn hp
    · intro _
      refine ⟨joinNotice s2.conf.Nick, ?_, ?_⟩
      · simp only [send, hsent]
      · rw [hconf]
        exact ⟨"Hello, please send a private message to <",
          "> if you would like to participate in the discussion. /msg " ++ s.conf.Nick ++
            " hello", by simp [joinNotice, String.append_assoc]⟩

/-- C5 amended, concrete instances: on `#test` with allow-list `alice`, the Join of
`alice` sends exactly `MODE #test +e alice!*@*`, and the Join of `bob` sends exactly one
notice, to `bob`, that names the bot; on `#test` with the connection pattern
`*.example.com`, the Join of `carol` from the host `gw.example.com` sends exactly
`MODE #test +e carol!*@*`. -/
theorem onJOIN_managed_witness :
    (∃ s1, onJOIN sampleDeps (joinEvent "alice" "example.com" "#test") (testState ["alice"])
        = some s1 ∧ occGet s1 0 "alice" = true ∧
      s1.conf = (testState ["alice"]).conf ∧ s1.written = [] ∧
      s1.sent = [] ++ [Command.Mode "#test" ["+e", "alice" ++ "!*@*"]]) ∧
    (∃ s1, onJOIN sampleDeps (joinEvent "bob" "example.com" "#test") (testState ["alice"])
        = some s1 ∧ occGet s1 0 "bob" = true ∧
      ∃ text, s1.sent = [] ++ [Command.Notice "bob" text] ∧ Contains text "botnick") ∧
    (∃ s1, onJOIN sampleDeps (joinEvent "carol" "gw.example.com" "#test")
        (connState [] ["*.example.com"]) = some s1 ∧ occGet s1 0 "carol" = true ∧
      s1.sent = [] ++ [Command.Mode "#test" ["+e", "carol" ++ "!*@*"]]) :=
  have h := onJOIN_managed sampleDeps (joinEvent "alice" "example.com" "#test")
    (testState ["alice"]) "#test" 0 (testChannel ["alice"]) rfl (by decide)
    (by decide) (by decide) (by decide)
  have h2 := onJOIN_managed sampleDeps (joinEvent "bob" "example.com" "#test")
    (testState ["alice"]) "#test" 0 (testChannel ["alice"]) rfl (by decide)
    (by decide) (by decide) (by decide)
  have h3 := onJOIN_managed sampleDeps (joinEvent "carol" "gw.example.com" "#test")
    (connState [] ["*.example.com"]) "#test" 0
    { testChannel [] with WhiteListConnection := ["*.example.com"] } rfl (by decide)
    (by decide) (by decide) (by decide)
  ⟨h.imp fun _ hs => ⟨hs.1, hs.2.1, hs.2.2.1, hs.2.2.2.1, hs.2.2.2.2.1 (Or.inl (by decide))⟩,
    h2.imp fun _ hs => ⟨hs.1, hs.2.1, hs.2.2.2.2.2 (by decide)⟩,
    h3.imp fun _ hs => ⟨hs.1, hs.2.1, hs.2.2.2.2.1 (Or.inr (by decide))⟩⟩

/-- C6: a Kick on a configured channel with `ManageWhiteList` set, whose allow-list has
no duplicates (and contains the kicked nick, or does not), leaves the nick off the
allow-list and out of the channel's occupancy and sends exactly one command, the mode
request `-e nick!*@*` on the channel, whatever `CleanWhiteList` is and whatever the
outcome of the write. -/
theorem onKICK_managed (d : Deps) (e : Event) (s : State) (name nick : String) (c : Nat)
    (ch : Channel) (ha0 : e.Arguments[0]? = some name) (ha1 : e.Arguments[1]? = some nick)
    (hf : s.conf.findChannel name = some c) (hc : s.conf.Channel[c]? = some ch)
    (hm : ch.ManageWhiteList = true) (hnd : ch.WhiteListNicks.Nodup) :
    ∃ s1, onKICK d e s = some s1 ∧ nick ∉ whiteList s1 c ∧ occGet s1 c nick = false ∧
      s1.sent = s.sent ++ [Command.Mode name ["-e", nick ++ "!*@*"]] := by
  have hname : ch.Name = name := by
    obtain ⟨ch1, h1, h2⟩ := findChannelIdx_some hf
    rw [hc] at h1
    cases h1
    exact h2
  have hc1 : (occDelete s c nick).conf.Channel[c]? = some ch := hc
  refine ⟨send (removeWhiteList d (occDelete s c nick) c nick).1
    (.Mode ch.Name ["-e", nick ++ "!*@*"]), ?_, ?_, ?_, ?_⟩
  · simp only [onKICK, ha0, ha1, hf, hc1, hm, if_true]
  · show nick ∉ whiteList (removeWhiteList d (occDelete s c nick) c nick).1 c
    rw [whiteList_removeWhiteList_same, whiteList_of_chan hc1]
    intro hmem
    exact ((List.Nodup.mem_erase_iff hnd).1 hmem).1 rfl
  · show occGet (removeWhiteList d (occDelete s c nick) c nick).1 c nick = false
    have h2 := (removeWhiteList_fst d (occDelete s c nick) c nick).2.2.1
    have h3 := occGet_occDelete_self s c nick
    unfold occGet at h3 ⊢
    rw [h2]
    exact h3
  · show (removeWhiteList d (occDelete s c nick) c nick).1.sent ++ _ = _
    rw [(removeWhiteList_fst d (occDelete s c nick) c nick).2.2.2, hname]
    rfl

/-- C6, a concrete instance: `alice` is kicked from `#test` while the write fails. -/
theorem onKICK_managed_witness :
    ∃ s1, onKICK failingDeps
        { Code := "KICK", Nick := "op", Host := "example.com", Source := "op!o@example.com",
          Arguments := ["#test", "alice", "bye"] }
        (testState ["alice", "bob"]) = some s1 ∧
      "alice" ∉ whiteList s1 0 ∧ occGet s1 0 "alice" = false ∧
      s1.sent = [] ++ [Command.Mode "#test" ["-e", "alice" ++ "!*@*"]] :=
  onKICK_managed failingDeps
    { Code := "KICK", Nick := "op", Host := "example.com", Source := "op!o@example.com",
      Arguments := ["#test", "alice", "bye"] }
    (testState ["alice", "bob"]) "#test" "alice" 0 (testChannel ["alice", "bob"])
    (by decide) (by decide) (by decide) (by decide) (by decide) (by decide)

/-- C7: a Part on a configured channel removes the parting nick from that channel's
occupancy and leaves every other occupancy entry as it was; the configuration, so the
allow-list of every channel, is unchanged and nothing is written; exactly one command
is sent, the mode request `-e nick!*@*` on the channel, if `ManageWhiteList` and
`CleanWhiteList` are both set, and no command otherwise. -/
theorem onPART_frame (e : Event) (s : State) (name : String) (c : Nat) (ch : Channel)
    (ha : e.Arguments[0]? = some name) (hf : s.conf.findChannel name = some c)
    (hc : s.conf.Channel[c]? = some ch) :
    ∃ s1, onPART e s = some s1 ∧ occGet s1 c e.Nick = false ∧
      (∀ j n, j ≠ c ∨ n ≠ e.Nick → occGet s1 j n = occGet s j n) ∧
      s1.conf = s.conf ∧ s1.written = s.written ∧
      s1.sent = s.sent ++
        (if ch.ManageWhiteList = true ∧ ch.CleanWhiteList = true then
          [Command.Mode name ["-e", e.Nick ++ "!*@*"]] else []) := by
  have hname : ch.Name = name := by
    obtain ⟨ch1, h1, h2⟩ := findChannelIdx_some hf
    rw [hc] at h1
    cases h1
    exact h2
  have hc1 : (occDelete s c e.Nick).conf.Channel[c]? = some ch := hc
  by_cases hb : ch.ManageWhiteList = true ∧ ch.CleanWhiteList = true
  · have hb2 : (ch.ManageWhiteList && ch.CleanWhiteList) = true := by
      rw [Bool.and_eq_true]; exact hb
    refine ⟨send (occDelete s c e.Nick) (.Mode ch.Name ["-e", e.Nick ++ "!*@*"]), ?_,
      occGet_occDelete_self s c e.Nick, fun j n h => occGet_occDelete_ne s c e.Nick j n h,
      rfl, rfl, ?_⟩
    · simp only [onPART, ha, hf, hc1, hb2, if_true]
    · simp only [hb, and_self, if_true, hname]
      rfl
  · have hb2 : ¬ (ch.ManageWhiteList && ch.CleanWhiteList) = true := by
      rw [Bool.and_eq_true]; exact hb
    refine ⟨occDelete s c e.Nick, ?_,
      occGet_occDelete_self s c e.Nick, fun j n h => occGet_occDelete_ne s c e.Nick j n h,
      rfl, rfl, ?_⟩
    · simp [onPART, ha, hf, hc1, hb2]
    · simp only [hb, if_false, List.append_nil]
      rfl

/-- C7, a concrete instance: `alice`, on the allow-list of `#test` (which has both
flags set), parts; she stays on the allow-list and one `-e` request is sent. -/
theorem onPART_frame_witness :
    ∃ s1, onPART
        { Code := "PART", Nick := "alice", Host := "example.com",
          Source := "alice!a@example.com", Arguments := ["#test"] }
        (testState ["alice"]) = some s1 ∧ occGet s1 0 "alice" = false ∧
      s1.conf = (testState ["alice"]).conf ∧ s1.written = [] ∧
      s1.sent = [] ++ [Command.Mode "#test" ["-e", "alice" ++ "!*@*"]] :=
  have h := onPART_frame
    { Code := "PART", Nick := "alice", Host := "example.com",
      Source := "alice!a@example.com", Arguments := ["#test"] }
    (testState ["alice"]) "#test" 0 (testChannel ["alice"]) (by decide) (by decide)
    (by decide)
  h.imp fun _ hs => ⟨hs.1, hs.2.1, hs.2.2.2.1, hs.2.2.2.2.1, hs.2.2.2.2.2⟩

/-! ## Loops over the channels -/

theorem flatMap_congr_mem {α β : Type} (l : List α) (f g : α → List β)
    (h : ∀ x ∈ l, f x = g x) : l.flatMap f = l.flatMap g := by
  simp only [List.flatMap]
  rw [List.map_congr_left h]

/-- A loop over the channels whose body, at index `k`, replaces the channel by
`fc v m`, the occupancy map by `fo m` and sends `fcmd v m`: the loop over the indices
`a, ..., a + m - 1` does so at each of these indices. -/
theorem forChannels_range' {body : Nat → Channel → State → Option State}
    {fc : Channel → Option NickMap → Channel} {fo : NickMap → NickMap}
    {fcmd : Channel → Option NickMap → List Command}
    (H : ∀ k v s, s.conf.Channel[k]? = some v → ∃ s1, body k v s = some s1 ∧
      (∀ j, s1.conf.Channel[j]? =
        if j = k then some (fc v (s.channelOccupancy[k]?)) else s.conf.Channel[j]?) ∧
      (∀ j, s1.channelOccupancy[j]? =
        if j = k then (s.channelOccupancy[k]?).map fo else s.channelOccupancy[j]?) ∧
      s1.sent = s.sent ++ fcmd v (s.channelOccupancy[k]?)) :
    ∀ (m a : Nat) (s : State), a + m ≤ s.conf.Channel.length →
      ∃ s1, forChannels body (List.range' a m) s = some s1 ∧
        (∀ j, s1.conf.Channel[j]? =
          if a ≤ j ∧ j < a + m then
            (s.conf.Channel[j]?).map (fun v => fc v (s.channelOccupancy[j]?))
          else s.conf.Channel[j]?) ∧
        (∀ j, s1.channelOccupancy[j]? =
          if a ≤ j ∧ j < a + m then (s.channelOccupancy[j]?).map fo
          else s.channelOccupancy[j]?) ∧
        s1.sent = s.sent ++ (List.range' a m).flatMap (cmdsAt fcmd s) := by
  intro m
  induction m with
  | zero =>
    intro a s _
    refine ⟨s, rfl, ?_, ?_, ?_⟩
    · intro j
      split
      · omega
      · rfl
    · intro j
      split
      · omega
      · rfl
    · simp
  | succ m ih =>
    intro a s hlen
    have ha : a < s.conf.Channel.length := by omega
    obtain ⟨v, hv⟩ : ∃ v, s.conf.Channel[a]? = some v :=
      ⟨s.conf.Channel[a], List.getElem?_eq_getElem ha⟩
    obtain ⟨s2, hb, hch2, hocc2, hsent2⟩ := H a v s hv
    have hlen2 : a + 1 + m ≤ s2.conf.Channel.length := by
      by_contra hcon
      have hnone : s2.conf.Channel[a + m]? = none :=
        List.getElem?_eq_none_iff.2 (by omega)
      rw [hch2] at hnone
      by_cases hm0 : a + m = a
      · simp [hm0] at hnone
      · simp only [hm0, if_false] at hnone
        rw [List.getElem?_eq_none_iff] at hnone
        omega
    obtain ⟨s1, hloop, hch1, hocc1, hsent1⟩ := ih (a + 1) s2 hlen2
    refine ⟨s1, ?_, ?_, ?_, ?_⟩
    · rw [List.range'_succ]
      simp only [forChannels, hv, hb]
      exact hloop
    · intro j
      rw [hch1, hch2, hocc2]
      by_cases hja : j = a
      · subst hja
        have h1 : ¬ (j + 1 ≤ j ∧ j < j + 1 + m) := by omega
        have h2 : j ≤ j ∧ j < j + (m + 1) := by omega
        simp [h1, h2, hv]
      · by_cases hr : a + 1 ≤ j ∧ j < a + 1 + m
        · have h2 : a ≤ j ∧ j < a + (m + 1) := by omega
          simp [hr, h2, hja]
        · have h2 : ¬ (a ≤ j ∧ j < a + (m + 1)) := by omega
          simp [hr, h2, hja]
    · intro j
      rw [hocc1, hocc2]
      by_cases hja : j = a
      · subst hja
        have h1 : ¬ (j + 1 ≤ j ∧ j < j + 1 + m) := by omega
        have h2 : j ≤ j ∧ j < j + (m + 1) := by omega
        simp [h1, h2]
      · by_cases hr : a + 1 ≤ j ∧ j < a + 1 + m
        · have h2 : a ≤ j ∧ j < a + (m + 1) := by omega
          simp [hr, h2, hja]
        · have h2 : ¬ (a ≤ j ∧ j < a + (m + 1)) := by omega
          simp [hr, h2, hja]
    · rw [hsent1, hsent2, List.range'_succ, List.flatMap_cons, List.append_assoc]
      congr 1
      have hc0 : cmdsAt fcmd s a = fcmd v (s.channelOccupancy[a]?) := by
        simp only [cmdsAt, hv]
      rw [hc0]
      congr 1
      apply flatMap_congr_mem
      intro j hj
      have hj1 : a + 1 ≤ j := by
        have := (List.mem_range'_1.1 hj).1
        exact this
      have hne : ¬ j = a := by omega
      simp only [cmdsAt, hch2, hocc2, hne, if_false]

/-- The loop `for k, v := range conf.Channel` with a body as in `forChannels_range'`. -/
theorem rangeChannels_spec {body : Nat → Channel → State → Option State}
    {fc : Channel → Option NickMap → Channel} {fo : NickMap → NickMap}
    {fcmd : Channel → Option NickMap → List Command}
    (H : ∀ k v s, s.conf.Channel[k]? = some v → ∃ s1, body k v s = some s1 ∧
      (∀ j, s1.conf.Channel[j]? =
        if j = k then some (fc v (s.channelOccupancy[k]?)) else s.conf.Channel[j]?) ∧
      (∀ j, s1.channelOccupancy[j]? =
        if j = k then (s.channelOccupancy[k]?).map fo else s.channelOccupancy[j]?) ∧
      s1.sent = s.sent ++ fcmd v (s.channelOccupancy[k]?))
    (s : State) :
    ∃ s1, rangeChannels body s = some s1 ∧
      (∀ j : Nat, s1.conf.Channel[j]? =
        (s.conf.Channel[j]?).map (fun v => fc v (s.channelOccupancy[j]?))) ∧
      (∀ j : Nat, s1.channelOccupancy[j]? =
        if j < s.conf.Channel.length then (s.channelOccupancy[j]?).map fo
        else s.channelOccupancy[j]?) ∧
      s1.sent = s.sent ++ (List.range s.conf.Channel.length).flatMap (cmdsAt fcmd s) := by
  obtain ⟨s1, h1, h2, h3, h4⟩ :=
    forChannels_range' H s.conf.Channel.length 0 s (by omega)
  refine ⟨s1, ?_, ?_, ?_, ?_⟩
  · rw [rangeChannels, List.range_eq_range']
    exact h1
  · intro j
    rw [h2]
    split
    · rfl
    · have hn : s.conf.Channel[j]? = none := List.getElem?_eq_none_iff.2 (by omega)
      rw [hn]
      rfl
  · intro j
    rw [h3]
    split
    · rw [if_pos (by omega)]
    · rw [if_neg (by omega)]
  · rw [h4, List.range_eq_range']

/-- When the commands of an iteration depend on the channel only, the commands of the
whole loop are those of the channels, in order. -/
theorem flatMap_range'_drop (g : Channel → List Command) (s : State) :
    ∀ (vs : List Channel) (a : Nat), s.conf.Channel.drop a = vs →
      (List.range' a vs.length).flatMap (cmdsAt (fun v _ => g v) s) = vs.flatMap g := by
  intro vs
  induction vs with
  | nil => intro a _; rfl
  | cons v vs ih =>
    intro a ha
    have hlt : a < s.conf.Channel.length := by
      by_contra hcon
      rw [List.drop_eq_nil_of_le (by omega)] at ha
      cases ha
    rw [List.drop_eq_getElem_cons hlt] at ha
    simp only [List.cons.injEq] at ha
    have hv : s.conf.Channel[a]? = some v := by
      rw [List.getElem?_eq_getElem hlt, ha.1]
    simp only [List.length_cons, List.range'_succ, List.flatMap_cons]
    rw [ih (a + 1) ha.2]
    simp only [cmdsAt, hv]

theorem flatMap_range_channels (g : Channel → List Command) (s : State) :
    (List.range s.conf.Channel.length).flatMap (cmdsAt (fun v _ => g v) s)
      = s.conf.Channel.flatMap g := by
  rw [List.range_eq_range']
  exact flatMap_range'_drop g s s.conf.Channel 0 rfl

theorem flatMap_split_at {α β : Type} (g : α → List β) (l : List α) (k : Nat) (x : α)
    (h : l[k]? = some x) :
    l.flatMap g = (l.take k).flatMap g ++ g x ++ (l.drop (k + 1)).flatMap g := by
  obtain ⟨hlt, hx⟩ := List.getElem?_eq_some_iff.1 h
  conv_lhs => rw [← List.take_append_drop k l, List.drop_eq_getElem_cons hlt]
  rw [List.flatMap_append, List.flatMap_cons, hx, List.append_assoc]

/-! ## Quit and Nick change, channel by channel -/

theorem quitBody_local (e : Event) (k : Nat) (v : Channel) (s : State)
    (_hv : s.conf.Channel[k]? = some v) :
    ∃ s1, quitBody e k v s = some s1 ∧
      (∀ j, s1.conf.Channel[j]? =
        if j = k then some ((fun (v : Channel) (_ : Option NickMap) => v) v
          (s.channelOccupancy[k]?)) else s.conf.Channel[j]?) ∧
      (∀ j, s1.channelOccupancy[j]? =
        if j = k then (s.channelOccupancy[k]?).map (fun m => mapDelete m e.Nick)
        else s.channelOccupancy[j]?) ∧
      s1.sent = s.sent ++ (fun (v : Channel) (_ : Option NickMap) => quitCommands e.Nick v) v
        (s.channelOccupancy[k]?) := by
  have hch : ∀ j, s.conf.Channel[j]? = if j = k then some v else s.conf.Channel[j]? := by
    intro j
    split
    · rename_i h; rw [h]; exact _hv
    · rfl
  by_cases hb : (v.ManageWhiteList && v.CleanWhiteList) = true
  · refine ⟨send (occDelete s k e.Nick) (.Mode v.Name ["-e", e.Nick ++ "!*@*"]), ?_, hch,
      occDelete_get s k e.Nick, ?_⟩
    · simp only [quitBody, hb, if_true]
    · simp only [quitCommands, hb, if_true]
      rfl
  · refine ⟨occDelete s k e.Nick, ?_, hch, occDelete_get s k e.Nick, ?_⟩
    · simp [quitBody, hb]
    · simp only [quitCommands, hb, if_false, List.append_nil, Bool.false_eq_true]
      rfl

theorem nickRename_local (e : Event) (n : String) (k : Nat) (s : State)
    (ha : e.Arguments[0]? = some n) :
    ∃ s1, nickRename e k s = some s1 ∧ s1.conf = s.conf ∧ s1.sent = s.sent ∧
      s1.written = s.written ∧
      (∀ j, s1.channelOccupancy[j]? =
        if j = k then (s.channelOccupancy[k]?).map (nickOccupancy e n)
        else s.channelOccupancy[j]?) := by
  by_cases ho : occGet s k e.Nick = true
  · have ho2 := ho
    unfold occGet at ho2
    cases hm : s.channelOccupancy[k]? with
    | none => rw [hm] at ho2; simp at ho2
    | some m =>
      rw [hm] at ho2
      simp only at ho2
      have hd : (occDelete s k e.Nick).channelOccupancy[k]? = some (mapDelete m e.Nick) := by
        rw [occDelete_get, hm]
        simp
      have hlt : k < (occDelete s k e.Nick).channelOccupancy.length :=
        (List.getElem?_eq_some_iff.1 hd).1
      obtain ⟨s1, hs1⟩ := occSet_isSome n hlt
      obtain ⟨h1, h2, h3⟩ := occSet_conf hs1
      refine ⟨s1, ?_, h1, h2, h3, ?_⟩
      · simp only [nickRename, ho, if_true, ha, hs1]
      · intro j
        rw [occSet_get hs1, hd, occDelete_get]
        by_cases hj : j = k
        · simp [hj, nickOccupancy, ho2]
        · simp [hj]
  · refine ⟨s, ?_, rfl, rfl, rfl, ?_⟩
    · simp [nickRename, ho]
    · intro j
      by_cases hj : j = k
      · subst hj
        unfold occGet at ho
        cases hm : s.channelOccupancy[j]? with
        | none => simp
        | some m =>
          rw [hm] at ho
          simp only at ho
          simp [nickOccupancy, ho]
      · simp [hj]

theorem nickBody_local (d : Deps) (e : Event) (n : String) (ha : e.Arguments[0]? = some n)
    (k : Nat) (v : Channel) (s : State) (hv : s.conf.Channel[k]? = some v) :
    ∃ s1, nickBody d e k v s = some s1 ∧
      (∀ j, s1.conf.Channel[j]? =
        if j = k then some ((fun (v : Channel) (_ : Option NickMap) => nickChannel d e n v) v
          (s.channelOccupancy[k]?)) else s.conf.Channel[j]?) ∧
      (∀ j, s1.channelOccupancy[j]? =
        if j = k then (s.channelOccupancy[k]?).map (nickOccupancy e n)
        else s.channelOccupancy[j]?) ∧
      s1.sent = s.sent ++ (fun (v : Channel) (_ : Option NickMap) => nickCommands d e n v) v
        (s.channelOccupancy[k]?) := by
  obtain ⟨s2, hr, hconf, hsent, _, hocc⟩ := nickRename_local e n k s ha
  by_cases hp : nickProtected d e v = true
  · have hp2 : (v.protectedNick e.Nick || v.protectedConn d e.Host) = true := hp
    refine ⟨send (addWhiteList d (removeWhiteList d s2 k e.Nick).1 k n).1
      (.Mode v.Name ["-e+e", e.Nick ++ "!*@*", n ++ "!*@*"]), ?_, ?_, ?_, ?_⟩
    · simp only [nickBody, hr, hp2, if_true, ha]
    · intro j
      show (addWhiteList d (removeWhiteList d s2 k e.Nick).1 k n).1.conf.Channel[j]? = _
      rw [chan_addWhiteList, chan_removeWhiteList, hconf]
      by_cases hj : j = k
      · subst hj
        simp [hv, nickChannel, hp, Channel.withNicks]
      · have hj2 : ¬ k = j := fun h => hj h.symm
        cases hs : s.conf.Channel[j]? <;> simp [hj, hj2]
    · intro j
      show (addWhiteList d (removeWhiteList d s2 k e.Nick).1 k n).1.channelOccupancy[j]? = _
      rw [(addWhiteList_fst _ _ _ _).2.2.1, (removeWhiteList_fst _ _ _ _).2.2.1]
      exact hocc j
    · show (addWhiteList d (removeWhiteList d s2 k e.Nick).1 k n).1.sent ++ _ = _
      rw [(addWhiteList_fst _ _ _ _).2.2.2, (removeWhiteList_fst _ _ _ _).2.2.2, hsent]
      simp only [nickCommands, hp, if_true]
  · have hp2 : ¬ (v.protectedNick e.Nick || v.protectedConn d e.Host) = true := hp
    have hch : ∀ j, s2.conf.Channel[j]? =
        if j = k then some (nickChannel d e n v) else s.conf.Channel[j]? := by
      intro j
      rw [hconf]
      split
      · rename_i h
        rw [h, hv]
        simp [nickChannel, hp]
      · rfl
    by_cases hcl : v.CleanWhiteList = true
    · refine ⟨send s2 (.Mode v.Name ["-e", e.Nick ++ "!*@*"]), ?_, hch, hocc, ?_⟩
      · simp [nickBody, hr, hp2, hcl]
      · simp [nickCommands, hp, hcl, send, hsent]
    · refine ⟨s2, ?_, hch, hocc, ?_⟩
      · simp [nickBody, hr, hp2, hcl]
      · simp [nickCommands, hp, hcl, hsent]

/-- The callback `QUIT` as a whole. -/
theorem onQUIT_summary (e : Event) (s : State) :
    ∃ s1, onQUIT e s = some s1 ∧ s1.conf = s.conf ∧ s1.written = s.written ∧
      (∀ j : Nat, s1.channelOccupancy[j]? =
        if j < s.conf.Channel.length then
          (s.channelOccupancy[j]?).map (fun m => mapDelete m e.Nick)
        else s.channelOccupancy[j]?) ∧
      s1.sent = s.sent ++ s.conf.Channel.flatMap (quitCommands e.Nick) := by
  obtain ⟨s1, h1, _, h3, h4⟩ := @rangeChannels_spec (quitBody e) (fun v _ => v)
    (fun m => mapDelete m e.Nick) (fun v _ => quitCommands e.Nick v) (quitBody_local e) s
  have hp : s1.conf = s.conf ∧ s1.written = s.written := by
    apply forChannels_preserves (P := fun t => t.conf = s.conf ∧ t.written = s.written)
      _ _ s s1 ⟨rfl, rfl⟩ h1
    intro k v t t1 _ hp hb
    unfold quitBody at hb
    simp only at hb
    split at hb <;> (cases hb; exact hp)
  refine ⟨s1, h1, hp.1, hp.2, h3, ?_⟩
  rw [h4, flatMap_range_channels]

/-- The callback `NICK` as a whole, for an event that carries the new nick `n`. -/
theorem onNICK_summary (d : Deps) (e : Event) (n : String) (s : State)
    (ha : e.Arguments[0]? = some n) :
    ∃ s1, onNICK d e s = some s1 ∧
      (∀ j : Nat, s1.conf.Channel[j]? = (s.conf.Channel[j]?).map (nickChannel d e n)) ∧
      (∀ j : Nat, s1.channelOccupancy[j]? =
        if j < s.conf.Channel.length then (s.channelOccupancy[j]?).map (nickOccupancy e n)
        else s.channelOccupancy[j]?) ∧
      s1.sent = s.sent ++ s.conf.Channel.flatMap (nickCommands d e n) ∧
      ((∀ ch ∈ s.conf.Channel, nickProtected d e ch = false) →
        s1.conf = s.conf ∧ s1.written = s.written) := by
  obtain ⟨s1, h1, h2, h3, h4⟩ := @rangeChannels_spec (nickBody d e)
    (fun v _ => nickChannel d e n v) (nickOccupancy e n) (fun v _ => nickCommands d e n v)
    (nickBody_local d e n ha) s
  refine ⟨s1, h1, h2, h3, ?_, ?_⟩
  · rw [h4, flatMap_range_channels]
  · intro hall
    apply forChannels_preserves (P := fun t => t.conf = s.conf ∧ t.written = s.written)
      _ _ s s1 ⟨rfl, rfl⟩ h1
    intro k v t t1 hv hp hb
    have hmem : v ∈ s.conf.Channel := by
      rw [← hp.1]
      exact List.mem_iff_getElem?.2 ⟨k, hv⟩
    have hnp : ¬ (v.protectedNick e.Nick || v.protectedConn d e.Host) = true := by
      have := hall v hmem
      unfold nickProtected at this
      rw [this]
      simp
    unfold nickBody at hb
    split at hb
    · cases hb
    · rename_i t2 ht2
      obtain ⟨g1, _, g3⟩ := nickRename_conf ht2
      rw [if_neg hnp] at hb
      split at hb <;> (cases hb; exact ⟨g1.trans hp.1, g3.trans hp.2⟩)

theorem mem_addNick {x nick : String} {l : List String} :
    x ∈ addNick nick l ↔ x = nick ∨ x ∈ l := by
  unfold addNick
  split
  · rename_i h
    constructor
    · exact Or.inr
    · rintro (h1 | h1)
      · rw [h1]; exact h
      · exact h1
  · simp only [List.mem_append, List.mem_singleton]
    exact Or.comm

theorem occGet_of_get {s : State} {k : Nat} (x : String) :
    occGet s k x = match s.channelOccupancy[k]? with
      | some m => mapGet m x
      | none => false := rfl

theorem nickCommands_target (d : Deps) (e : Event) (n : String) (v : Channel) :
    ∀ c ∈ nickCommands d e n v, c.target = v.Name := by
  intro c hc
  unfold nickCommands at hc
  split at hc
  · simp only [List.mem_singleton] at hc
    rw [hc]; rfl
  · split at hc
    · simp only [List.mem_singleton] at hc
      rw [hc]; rfl
    · simp at hc

theorem filter_flatMap_nil {α β : Type} (p : β → Bool) (g : α → List β) (l : List α)
    (h : ∀ a ∈ l, ∀ b ∈ g a, p b = false) : (l.flatMap g).filter p = [] := by
  rw [List.filter_eq_nil_iff]
  intro b hb
  rw [List.mem_flatMap] at hb
  obtain ⟨a, ha, hba⟩ := hb
  rw [h a ha b hba]
  simp

theorem mem_take_index {α : Type} {l : List α} {k : Nat} {x : α} (h : x ∈ l.take k) :
    ∃ j, j ≠ k ∧ l[j]? = some x := by
  obtain ⟨j, hj, hx⟩ := List.mem_take_iff_getElem.1 h
  have hlt : j < l.length := by omega
  exact ⟨j, by omega, by rw [List.getElem?_eq_getElem hlt, hx]⟩

theorem mem_drop_index {α : Type} {l : List α} {k : Nat} {x : α} (h : x ∈ l.drop (k + 1)) :
    ∃ j, j ≠ k ∧ l[j]? = some x := by
  obtain ⟨j, hj, hx⟩ := List.mem_drop_iff_getElem.1 h
  have hlt : k + 1 + j < l.length := by omega
  exact ⟨k + 1 + j, by omega, by rw [List.getElem?_eq_getElem hlt, hx]⟩

/-! ## Quit -/

/-- C8, as stated, fails: on `#test` (both flags set) where `bob` is not tracked, the
Quit of `bob` still sends a `-e` request for the channel. -/
theorem onQUIT_untracked_counterexample :
    occGet (testState ["alice"]) 0 "bob" = false ∧
      (onQUIT (quitEvent "bob") (testState ["alice"])).map (fun s1 => s1.sent)
        = some [Command.Mode "#test" ["-e", "bob!*@*"]] := by
  decide

/-- C8, amended: a Quit of `e.Nick` is handled for every configured channel, tracked
or not. Afterwards the nick is in no configured channel's occupancy and every other
occupancy entry is as before; the configuration, so every allow-list, is unchanged and
nothing is written; the commands sent are, channel by channel in the order of the
configuration, one mode request `-e nick!*@*` for each channel that has
`ManageWhiteList` and `CleanWhiteList` set, and nothing for the other channels. -/
theorem onQUIT_every_channel (e : Event) (s : State) :
    ∃ s1, onQUIT e s = some s1 ∧ s1.conf = s.conf ∧ s1.written = s.written ∧
      (∀ k, k < s.conf.Channel.length → occGet s1 k e.Nick = false) ∧
      (∀ k n, n ≠ e.Nick → occGet s1 k n = occGet s k n) ∧
      s1.sent = s.sent ++ s.conf.Channel.flatMap (fun v =>
        if v.ManageWhiteList = true ∧ v.CleanWhiteList = true then
          [Command.Mode v.Name ["-e", e.Nick ++ "!*@*"]]
        else []) := by
  obtain ⟨s1, h1, h2, h3, h4, h5⟩ := onQUIT_summary e s
  refine ⟨s1, h1, h2, h3, ?_, ?_, ?_⟩
  · intro k hk
    rw [occGet_of_get, h4, if_pos hk]
    cases s.channelOccupancy[k]? with
    | none => rfl
    | some m => exact mapGet_mapDelete_self m e.Nick
  · intro k n hn
    rw [occGet_of_get, occGet_of_get, h4]
    by_cases hk : k < s.conf.Channel.length
    · rw [if_pos hk]
      cases s.channelOccupancy[k]? with
      | none => rfl
      | some m => exact mapGet_mapDelete_ne m e.Nick n hn
    · rw [if_neg hk]
  · rw [h5]
    congr 1
    apply flatMap_congr_mem
    intro v _
    simp only [quitCommands, Bool.and_eq_true]

/-- C8 amended, a concrete instance: `bob`, tracked in `#test`, quits. -/
theorem onQUIT_every_channel_witness :
    ∃ s1, onQUIT (quitEvent "bob")
        { testState ["alice"] with channelOccupancy := [[("bob", true), ("alice", true)]] }
        = some s1 ∧ occGet s1 0 "bob" = false ∧ occGet s1 0 "alice" = true ∧
      s1.sent = [Command.Mode "#test" ["-e", "bob!*@*"]] :=
  have h := onQUIT_every_channel (quitEvent "bob")
    { testState ["alice"] with channelOccupancy := [[("bob", true), ("alice", true)]] }
  h.imp fun _ hs => ⟨hs.1, hs.2.2.2.1 0 (by decide),
    (hs.2.2.2.2.1 0 "alice" (by decide)).trans (by decide), hs.2.2.2.2.2.trans (by decide)⟩

/-! ## Nick change -/

/-- C9, as stated, fails: `dave` renames himself to `erin` from
`dave!dave@example.com`. His connection identity `dave@example.com` matches the pattern
`*@example.com` of `#test`, under the glob semantics of the specification and under
the matcher of the library alike; yet afterwards the allow-list `alice` of the channel
does not contain `erin` and the only command sent is `-e dave!*@*`, not the combined
request, because the handler matches the patterns against the host `example.com`
alone. -/
theorem onNICK_identity_counterexample :
    connectionIdentity (nickEvent "dave" "example.com" "erin") = "dave@example.com" ∧
      specGlob "*@example.com".data "dave@example.com".data = true ∧
      goGlob "*@example.com" "dave@example.com" = true ∧
      (onNICK sampleDeps (nickEvent "dave" "example.com" "erin")
          (connState ["alice"] ["*@example.com"])).map
        (fun s1 => (whiteList s1 0, s1.sent))
        = some (["alice"], [Command.Mode "#test" ["-e", "dave!*@*"]]) := by
  decide

/-- C9, amended: on a Nick change from `e.Nick` to a different nick `n`, for every
channel (at index `k`) whose allow-list has no duplicates and in which the old nick is
protected, by being on the allow-list or by the host of the event (`e.Host`, not the
`user@host` identity) matching a `WhiteListConnection` pattern: the handler returns, the channel's allow-list no longer contains the old nick and
contains `n` exactly once, and the commands sent are those for the channels before
`k`, then the single combined request `-e+e old!*@* n!*@*` for this channel, then those
for the channels after `k`; so, when no other configured channel has the same name,
that request is the only command sent to this channel. -/
theorem onNICK_protected (d : Deps) (e : Event) (n : String) (s : State) (k : Nat)
    (ch : Channel) (ha : e.Arguments[0]? = some n) (hne : e.Nick ≠ n)
    (hc : s.conf.Channel[k]? = some ch) (hnd : ch.WhiteListNicks.Nodup)
    (hp : e.Nick ∈ ch.WhiteListNicks ∨ ch.protectedConn d e.Host = true) :
    ∃ s1, onNICK d e s = some s1 ∧ e.Nick ∉ whiteList s1 k ∧
      (whiteList s1 k).count n = 1 ∧
      s1.sent = s.sent ++ (s.conf.Channel.take k).flatMap (nickCommands d e n) ++
        [Command.Mode ch.Name ["-e+e", e.Nick ++ "!*@*", n ++ "!*@*"]] ++
        (s.conf.Channel.drop (k + 1)).flatMap (nickCommands d e n) ∧
      ((∀ j v, j ≠ k → s.conf.Channel[j]? = some v → v.Name ≠ ch.Name) →
        (s1.sent.drop s.sent.length).filter (fun c => c.target = ch.Name) =
          [Command.Mode ch.Name ["-e+e", e.Nick ++ "!*@*", n ++ "!*@*"]]) := by
  obtain ⟨s1, h1, h2, _, h4, _⟩ := onNICK_summary d e n s ha
  have hprot : nickProtected d e ch = true := by
    unfold nickProtected
    rw [Bool.or_eq_true, protectedNick_iff]
    exact hp
  have hk : s1.conf.Channel[k]? =
      some (ch.withNicks (addNick n (ch.WhiteListNicks.erase e.Nick))) := by
    rw [h2, hc]
    simp [nickChannel, hprot]
  have hwl : whiteList s1 k = addNick n (ch.WhiteListNicks.erase e.Nick) := by
    rw [whiteList_of_chan hk]
    rfl
  have hcmd : nickCommands d e n ch
      = [Command.Mode ch.Name ["-e+e", e.Nick ++ "!*@*", n ++ "!*@*"]] := by
    simp [nickCommands, hprot]
  have hsent : s1.sent = s.sent ++ (s.conf.Channel.take k).flatMap (nickCommands d e n) ++
      [Command.Mode ch.Name ["-e+e", e.Nick ++ "!*@*", n ++ "!*@*"]] ++
      (s.conf.Channel.drop (k + 1)).flatMap (nickCommands d e n) := by
    rw [h4, flatMap_split_at (nickCommands d e n) s.conf.Channel k ch hc, hcmd]
    simp only [List.append_assoc]
  refine ⟨s1, h1, ?_, ?_, hsent, ?_⟩
  · rw [hwl, mem_addNick]
    rintro (h | h)
    · exact hne h
    · exact ((List.Nodup.mem_erase_iff hnd).1 h).1 rfl
  · rw [hwl]
    exact count_addNick (List.Nodup.erase e.Nick hnd)
  · intro huniq
    have hother : ∀ v, (∃ j, j ≠ k ∧ s.conf.Channel[j]? = some v) →
        ∀ c ∈ nickCommands d e n v, decide (c.target = ch.Name) = false := by
      rintro v ⟨j, hj, hv⟩ c hcm
      rw [nickCommands_target d e n v c hcm]
      simpa using huniq j v hj hv
    rw [hsent]
    simp only [List.append_assoc, List.drop_left, List.filter_append]
    rw [filter_flatMap_nil _ _ _ (fun v hv => hother v (mem_take_index hv)),
      filter_flatMap_nil _ _ _ (fun v hv => hother v (mem_drop_index hv))]
    simp [Command.target]

/-- C9 amended, concrete instances: on `#test` with allow-list `alice, carol`, `alice`
renames herself to `bob` while every write fails; on `#test` with allow-list `alice`
and the connection pattern `*.example.com`, `dave` renames himself to `erin` from the
host `gw.example.com`. -/
theorem onNICK_protected_witness :
    (∃ s1, onNICK failingDeps (nickEvent "alice" "example.com" "bob")
        (testState ["alice", "carol"]) = some s1 ∧
      "alice" ∉ whiteList s1 0 ∧ (whiteList s1 0).count "bob" = 1 ∧
      s1.sent = [Command.Mode "#test" ["-e+e", "alice!*@*", "bob!*@*"]]) ∧
    (∃ s1, onNICK sampleDeps (nickEvent "dave" "gw.example.com" "erin")
        (connState ["alice"] ["*.example.com"]) = some s1 ∧
      "dave" ∉ whiteList s1 0 ∧ (whiteList s1 0).count "erin" = 1 ∧
      s1.sent = [Command.Mode "#test" ["-e+e", "dave!*@*", "erin!*@*"]]) :=
  have h := onNICK_protected failingDeps (nickEvent "alice" "example.com" "bob") "bob"
    (testState ["alice", "carol"]) 0 (testChannel ["alice", "carol"]) (by decide)
    (by decide) (by decide) (by decide) (Or.inl (by decide))
  have h2 := onNICK_protected sampleDeps (nickEvent "dave" "gw.example.com" "erin") "erin"
    (connState ["alice"] ["*.example.com"]) 0
    { testChannel ["alice"] with WhiteListConnection := ["*.example.com"] } (by decide)
    (by decide) (by decide) (by decide) (Or.inr (by decide))
  ⟨h.imp fun _ hs => ⟨hs.1, hs.2.1, hs.2.2.1, hs.2.2.2.1.trans (by decide)⟩,
    h2.imp fun _ hs => ⟨hs.1, hs.2.1, hs.2.2.1, hs.2.2.2.1.trans (by decide)⟩⟩

/-- C10, as stated, fails: on `#test` with allow-list `alice`, where `alice` is not
tracked in the occupancy, her change of nick to `bob` still rewrites the allow-list,
attempts a write and sends a mode request for the channel. -/
theorem onNICK_untracked_counterexample :
    occGet (testState ["alice"]) 0 "alice" = false ∧
      (onNICK sampleDeps (nickEvent "alice" "example.com" "bob") (testState ["alice"])).map
        (fun s1 => (whiteList s1 0, s1.sent, s1.written.length))
        = some (["bob"], [Command.Mode "#test" ["-e+e", "alice!*@*", "bob!*@*"]], 2) := by
  decide

/-- C10, amended: on a Nick change from `e.Nick` to `n` the handler returns and, for
every configured channel (at index `k`): if the old nick is tracked there and `n` is a
different nick, the occupancy entry is renamed (old nick absent, `n` present); if the old
nick is not tracked there, the occupancy of the channel is unchanged. The allow-list
and the mode command do not depend on tracking: if the old nick is not protected in
the channel (neither by nick nor by connection) the channel's configuration, so its
allow-list, is unchanged, and if moreover `CleanWhiteList` is unset, no command is sent
for the channel (the commands sent are those for the channels before and after it);
if the old nick is protected in no channel, the configuration is unchanged and nothing
is written. -/
theorem onNICK_channelwise (d : Deps) (e : Event) (n : String) (s : State) (k : Nat)
    (ch : Channel) (ha : e.Arguments[0]? = some n) (hc : s.conf.Channel[k]? = some ch) :
    ∃ s1, onNICK d e s = some s1 ∧
      (occGet s k e.Nick = true → e.Nick ≠ n →
        occGet s1 k e.Nick = false ∧ occGet s1 k n = true) ∧
      (occGet s k e.Nick = false → ∀ x, occGet s1 k x = occGet s k x) ∧
      (nickProtected d e ch = false → s1.conf.Channel[k]? = some ch) ∧
      (nickProtected d e ch = false → ch.CleanWhiteList = false →
        s1.sent = s.sent ++ (s.conf.Channel.take k).flatMap (nickCommands d e n) ++
          (s.conf.Channel.drop (k + 1)).flatMap (nickCommands d e n)) ∧
      ((∀ v ∈ s.conf.Channel, nickProtected d e v = false) →
        s1.conf = s.conf ∧ s1.written = s.written) := by
  obtain ⟨s1, h1, h2, h3, h4, h5⟩ := onNICK_summary d e n s ha
  have hk : k < s.conf.Channel.length := (List.getElem?_eq_some_iff.1 hc).1
  refine ⟨s1, h1, ?_, ?_, ?_, ?_, h5⟩
  · intro ht hne
    rw [occGet_of_get] at ht
    rw [occGet_of_get, occGet_of_get, h3, if_pos hk]
    cases hm : s.channelOccupancy[k]? with
    | none => rw [hm] at ht; simp at ht
    | some m =>
      rw [hm] at ht
      simp only at ht
      simp only [Option.map_some', nickOccupancy, ht, if_true]
      exact ⟨by rw [mapGet_mapSet_ne _ _ _ _ hne, mapGet_mapDelete_self],
        mapGet_mapSet_self _ _ _⟩
  · intro ht x
    rw [occGet_of_get] at ht
    rw [occGet_of_get, occGet_of_get, h3, if_pos hk]
    cases hm : s.channelOccupancy[k]? with
    | none => rfl
    | some m =>
      rw [hm] at ht
      simp only at ht
      simp [nickOccupancy, ht]
  · intro hnp
    rw [h2, hc]
    simp [nickChannel, hnp]
  · intro hnp hcl
    rw [h4, flatMap_split_at (nickCommands d e n) s.conf.Channel k ch hc]
    simp [nickCommands, hnp, hcl]

/-- C10 amended, a concrete instance: `dave`, tracked in `#quiet` (which cleans
nothing) and on no allow-list, renames himself to `erin`. -/
theorem onNICK_channelwise_witness :
    ∃ s1, onNICK sampleDeps (nickEvent "dave" "example.com" "erin")
        { conf := testConfig [{ testChannel ["alice"] with
            Name := "#quiet", CleanWhiteList := false }],
          channelOccupancy := [[("dave", true)]], sent := [], written := [] } = some s1 ∧
      (occGet s1 0 "dave" = false ∧ occGet s1 0 "erin" = true) ∧
      whiteList s1 0 = ["alice"] ∧ s1.sent = [] ∧ s1.written = [] :=
  have h := onNICK_channelwise sampleDeps (nickEvent "dave" "example.com" "erin") "erin"
    { conf := testConfig [{ testChannel ["alice"] with
        Name := "#quiet", CleanWhiteList := false }],
      channelOccupancy := [[("dave", true)]], sent := [], written := [] } 0
    { testChannel ["alice"] with Name := "#quiet", CleanWhiteList := false }
    (by decide) (by decide)
  h.imp fun _ hs => ⟨hs.1, hs.2.1 (by decide) (by decide),
    (whiteList_of_chan (hs.2.2.2.1 (by decide))), (hs.2.2.2.2.1 (by decide) (by decide)),
    (hs.2.2.2.2.2 (by decide)).2⟩

/-! ## Persistence failures -/

theorem addWhiteList_fst_indep (d1 d2 : Deps) (s : State) (c : Nat) (nick : String) :
    (addWhiteList d1 s c nick).1 = (addWhiteList d2 s c nick).1 := by
  unfold addWhiteList
  split
  · rfl
  · split <;> rfl

theorem removeWhiteList_fst_indep (d1 d2 : Deps) (s : State) (c : Nat) (nick : String) :
    (removeWhiteList d1 s c nick).1 = (removeWhiteList d2 s c nick).1 := by
  unfold removeWhiteList
  split
  · rfl
  · split <;> rfl

theorem nickBody_indep (d1 d2 : Deps) (hG : d1.Glob = d2.Glob) (e : Event) :
    nickBody d1 e = nickBody d2 e := by
  funext k v s
  simp only [nickBody, Channel.protectedConn, hG, addWhiteList_fst_indep d1 d2,
    removeWhiteList_fst_indep d1 d2]

theorem selfJoinBody_indep (d1 d2 : Deps) (e : Event) :
    selfJoinBody d1 e = selfJoinBody d2 e := by
  funext k v s
  simp only [selfJoinBody, addWhiteList_fst_indep d1 d2]

theorem REPL_indep (d1 d2 : Deps) (hR : d1.regexpReplace = d2.regexpReplace) (e : Event)
    (c : Nat) (s : State) : REPL d1 e c s = REPL d2 e c s := by
  simp only [REPL, hR, addWhiteList_fst_indep d1 d2, removeWhiteList_fst_indep d1 d2]

/-- C11: two runs of the bot whose libraries differ only in the outcomes of the writes
(the glob matcher and the regular expressions are the same) handle every event in the
same way: from the same state both panic or both return, with the same allow-lists,
occupancy and commands sent (the whole state is the same, the record of attempted writes
included). In particular the body of the Nick-change loop, for a protected old nick,
ends by sending the combined mode request from the state reached after both allow-list
attempts, whatever these returned. -/
theorem write_outcome_irrelevant (d1 d2 : Deps) (hG : d1.Glob = d2.Glob)
    (hR : d1.regexpReplace = d2.regexpReplace) (e : Event) (s : State) :
    step d1 e s = step d2 e s ∧
      ∀ k v n s1, nickRename e k s = some s1 → e.Arguments[0]? = some n →
        (v.protectedNick e.Nick || v.protectedConn d1 e.Host) = true →
        nickBody d1 e k v s = some (send
          (addWhiteList d1 (removeWhiteList d1 s1 k e.Nick).1 k n).1
          (.Mode v.Name ["-e+e", e.Nick ++ "!*@*", n ++ "!*@*"])) := by
  constructor
  · have hadm : ∀ cfg src, Config.adminUser d1 cfg src = Config.adminUser d2 cfg src := by
      intro cfg src
      simp only [Config.adminUser, hG]
    simp only [step, onJOIN, onKICK, onNICK, onPRIVMSG, Channel.protectedConn, hG, hadm,
      nickBody_indep d1 d2 hG, selfJoinBody_indep d1 d2, REPL_indep d1 d2 hR,
      removeWhiteList_fst_indep d1 d2]
  · intro k v n s1 hr ha hp
    simp only [nickBody, hr, hp, if_true, ha]

/-- C11, a concrete instance: `alice` is kicked from `#test`, once with every write
succeeding and once with every write failing. -/
theorem write_outcome_irrelevant_witness :
    step sampleDeps
        { Code := "KICK", Nick := "op", Host := "example.com", Source := "op!o@example.com",
          Arguments := ["#test", "alice"] } (testState ["alice"])
      = step failingDeps
        { Code := "KICK", Nick := "op", Host := "example.com", Source := "op!o@example.com",
          Arguments := ["#test", "alice"] } (testState ["alice"]) :=
  (write_outcome_irrelevant sampleDeps failingDeps rfl rfl
    { Code := "KICK", Nick := "op", Host := "example.com", Source := "op!o@example.com",
      Arguments := ["#test", "alice"] } (testState ["alice"])).1

/-! ## Direct messages: self-join -/

theorem selfJoinBody_local (d : Deps) (e : Event) (k : Nat) (v : Channel) (s : State)
    (hv : s.conf.Channel[k]? = some v) :
    ∃ s1, selfJoinBody d e k v s = some s1 ∧
      (∀ j, s1.conf.Channel[j]? =
        if j = k then some (selfJoinChannel e.Nick v (s.channelOccupancy[k]?))
        else s.conf.Channel[j]?) ∧
      (∀ j, s1.channelOccupancy[j]? =
        if j = k then (s.channelOccupancy[k]?).map (fun m => m)
        else s.channelOccupancy[j]?) ∧
      s1.sent = s.sent ++ selfJoinCommands e.Nick v (s.channelOccupancy[k]?) := by
  have hocc : ∀ j, s.channelOccupancy[j]? =
      if j = k then (s.channelOccupancy[k]?).map (fun m => m)
      else s.channelOccupancy[j]? := by
    intro j
    split
    · rename_i h; rw [h]; simp
    · rfl
  by_cases hel : selfJoinEligible e.Nick v (s.channelOccupancy[k]?) = true
  · have hcond : (v.ManageWhiteList && v.WhiteListSelfJoin && !v.protectedNick e.Nick &&
        occGet s k e.Nick) = true := hel
    have hnp : e.Nick ∉ v.WhiteListNicks := by
      intro hmem
      have hp := protectedNick_iff.2 hmem
      simp [selfJoinEligible, hp] at hel
    refine ⟨send (addWhiteList d s k e.Nick).1 (.Mode v.Name ["+e", e.Nick ++ "!*@*"]),
      ?_, ?_, ?_, ?_⟩
    · simp only [selfJoinBody, hcond, if_true]
    · intro j
      show (addWhiteList d s k e.Nick).1.conf.Channel[j]? = _
      rw [chan_addWhiteList]
      by_cases hj : j = k
      · subst hj
        simp [hv, selfJoinChannel, hel, addNick, hnp]
      · have hj2 : ¬ k = j := fun h => hj h.symm
        cases hs : s.conf.Channel[j]? <;> simp [hj, hj2]
    · intro j
      show (addWhiteList d s k e.Nick).1.channelOccupancy[j]? = _
      rw [(addWhiteList_fst _ _ _ _).2.2.1]
      exact hocc j
    · show (addWhiteList d s k e.Nick).1.sent ++ _ = _
      rw [(addWhiteList_fst _ _ _ _).2.2.2]
      simp only [selfJoinCommands, hel, if_true]
  · have hcond : ¬ (v.ManageWhiteList && v.WhiteListSelfJoin && !v.protectedNick e.Nick &&
        occGet s k e.Nick) = true := hel
    refine ⟨s, ?_, ?_, hocc, ?_⟩
    · simp only [selfJoinBody, hcond, if_false]
      rfl
    · intro j
      split
      · rename_i h
        rw [h, hv]
        simp [selfJoinChannel, hel]
      · rfl
    · simp [selfJoinCommands, hel]

theorem range_split {n k : Nat} (h : k < n) :
    List.range n = List.range' 0 k ++ k :: List.range' (k + 1) (n - (k + 1)) := by
  have h1 := List.range'_append 0 k (n - k) 1
  have h2 : n - k + k = n := by omega
  have h3 : n - k = (n - (k + 1)) + 1 := by omega
  rw [List.range_eq_range', ← h2, ← h1]
  simp only [Nat.zero_add, Nat.one_mul]
  rw [h3, List.range'_succ]
  have h4 : n - (k + 1) + 1 + k - (k + 1) = n - (k + 1) := by omega
  rw [h4]

theorem selfJoinCommands_target (nick : String) (s : State) (j : Nat) :
    ∀ c ∈ cmdsAt (selfJoinCommands nick) s j,
      ∃ v, s.conf.Channel[j]? = some v ∧ c.target = v.Name := by
  intro c hc
  unfold cmdsAt at hc
  split at hc
  · rename_i v hv
    unfold selfJoinCommands at hc
    split at hc
    · simp only [List.mem_singleton] at hc
      exact ⟨v, hv, by rw [hc]; rfl⟩
    · simp at hc
  · simp at hc

/-- The direct-message branch of the callback `PRIVMSG` as a whole. -/
theorem onPRIVMSG_direct_summary (d : Deps) (e : Event) (message : String) (s : State)
    (ha0 : e.Arguments[0]? = some s.conf.Nick) (ha1 : e.Arguments[1]? = some message) :
    ∃ s1, onPRIVMSG d e s = some s1 ∧
      rangeChannels (selfJoinBody d e) s = some s1 ∧
      (∀ j : Nat, s1.conf.Channel[j]? =
        (s.conf.Channel[j]?).map (fun v => selfJoinChannel e.Nick v (s.channelOccupancy[j]?))) ∧
      s1.channelOccupancy = s.channelOccupancy ∧ s1.conf.Nick = s.conf.Nick ∧
      s1.sent = s.sent ++
        (List.range s.conf.Channel.length).flatMap (cmdsAt (selfJoinCommands e.Nick) s) := by
  obtain ⟨s1, h1, h2, _, h4⟩ := @rangeChannels_spec (selfJoinBody d e)
    (selfJoinChannel e.Nick) (fun m => m) (selfJoinCommands e.Nick)
    (selfJoinBody_local d e) s
  have hp : s1.channelOccupancy = s.channelOccupancy ∧ s1.conf.Nick = s.conf.Nick := by
    apply forChannels_preserves
      (P := fun t => t.channelOccupancy = s.channelOccupancy ∧ t.conf.Nick = s.conf.Nick)
      _ _ s s1 ⟨rfl, rfl⟩ h1
    intro k v t t1 _ hp hb
    unfold selfJoinBody at hb
    split at hb
    · cases hb
      exact ⟨(addWhiteList_fst d t k e.Nick).2.2.1.trans hp.1,
        (addWhiteList_fst d t k e.Nick).2.1.trans hp.2⟩
    · cases hb
      exact hp
  refine ⟨s1, ?_, h1, h2, hp.1, hp.2, h4⟩
  simp only [onPRIVMSG, ha0, ha1, if_true, h1, AdminREPL]
  split <;> rfl

/-- C12: on a message to the bot's own nick sent by `e.Nick`, for every configured
channel (at index `k`): if the channel has `ManageWhiteList` and `WhiteListSelfJoin`
set, the sender is not on its allow-list and is tracked as its occupant, then the sender
is appended to the channel's allow-list and the commands sent are those for the
channels before `k`, then the single mode request `+e nick!*@*` for this channel, then
those for the channels after `k`; if one of the conditions fails, the channel is
unchanged and the commands sent are only those for the channels before and after. So,
when no other configured channel has the same name, the commands sent to this channel
are that one request in the first case and none in the second. -/
theorem onPRIVMSG_selfJoin (d : Deps) (e : Event) (message : String) (s : State) (k : Nat)
    (ch : Channel) (ha0 : e.Arguments[0]? = some s.conf.Nick)
    (ha1 : e.Arguments[1]? = some message) (hc : s.conf.Channel[k]? = some ch) :
    ∃ s1, onPRIVMSG d e s = some s1 ∧
      ((ch.ManageWhiteList = true ∧ ch.WhiteListSelfJoin = true ∧
          e.Nick ∉ ch.WhiteListNicks ∧ occGet s k e.Nick = true) →
        whiteList s1 k = ch.WhiteListNicks ++ [e.Nick] ∧
        s1.sent = s.sent ++ (List.range' 0 k).flatMap (cmdsAt (selfJoinCommands e.Nick) s) ++
          [Command.Mode ch.Name ["+e", e.Nick ++ "!*@*"]] ++
          (List.range' (k + 1) (s.conf.Channel.length - (k + 1))).flatMap
            (cmdsAt (selfJoinCommands e.Nick) s)) ∧
      (¬ (ch.ManageWhiteList = true ∧ ch.WhiteListSelfJoin = true ∧
          e.Nick ∉ ch.WhiteListNicks ∧ occGet s k e.Nick = true) →
        s1.conf.Channel[k]? = some ch ∧
        s1.sent = s.sent ++ (List.range' 0 k).flatMap (cmdsAt (selfJoinCommands e.Nick) s) ++
          (List.range' (k + 1) (s.conf.Channel.length - (k + 1))).flatMap
            (cmdsAt (selfJoinCommands e.Nick) s)) ∧
      ((∀ j v, j ≠ k → s.conf.Channel[j]? = some v → v.Name ≠ ch.Name) →
        (s1.sent.drop s.sent.length).filter (fun c => c.target = ch.Name) =
          if ch.ManageWhiteList = true ∧ ch.WhiteListSelfJoin = true ∧
              e.Nick ∉ ch.WhiteListNicks ∧ occGet s k e.Nick = true then
            [Command.Mode ch.Name ["+e", e.Nick ++ "!*@*"]]
          else []) := by
  obtain ⟨s1, h1, _, h2, _, _, h4⟩ := onPRIVMSG_direct_summary d e message s ha0 ha1
  have hk : k < s.conf.Channel.length := (List.getElem?_eq_some_iff.1 hc).1
  have hel : selfJoinEligible e.Nick ch (s.channelOccupancy[k]?) = true ↔
      (ch.ManageWhiteList = true ∧ ch.WhiteListSelfJoin = true ∧
        e.Nick ∉ ch.WhiteListNicks ∧ occGet s k e.Nick = true) := by
    rw [← protectedNick_iff]
    simp only [selfJoinEligible, occGet, Bool.and_eq_true, Bool.not_eq_true', and_assoc,
      Bool.not_eq_true]
  have hsent : s1.sent = s.sent ++
      (List.range' 0 k).flatMap (cmdsAt (selfJoinCommands e.Nick) s) ++
      selfJoinCommands e.Nick ch (s.channelOccupancy[k]?) ++
      (List.range' (k + 1) (s.conf.Channel.length - (k + 1))).flatMap
        (cmdsAt (selfJoinCommands e.Nick) s) := by
    rw [h4, range_split hk, List.flatMap_append, List.flatMap_cons]
    have : cmdsAt (selfJoinCommands e.Nick) s k
        = selfJoinCommands e.Nick ch (s.channelOccupancy[k]?) := by
      simp only [cmdsAt, hc]
    rw [this]
    simp only [List.append_assoc]
  have hchan : s1.conf.Channel[k]? =
      some (selfJoinChannel e.Nick ch (s.channelOccupancy[k]?)) := by
    rw [h2, hc]
    rfl
  refine ⟨s1, h1, ?_, ?_, ?_⟩
  · intro hcond
    have h := hel.2 hcond
    constructor
    · rw [whiteList_of_chan hchan]
      simp [selfJoinChannel, h, Channel.withNicks]
    · rw [hsent]
      simp only [selfJoinCommands, h, if_true]
  · intro hcond
    have h : ¬ selfJoinEligible e.Nick ch (s.channelOccupancy[k]?) = true :=
      fun h => hcond (hel.1 h)
    constructor
    · rw [hchan]
      simp [selfJoinChannel, h]
    · rw [hsent]
      simp [selfJoinCommands, h]
  · intro huniq
    have hother : ∀ j, j ≠ k → ∀ c ∈ cmdsAt (selfJoinCommands e.Nick) s j,
        decide (c.target = ch.Name) = false := by
      intro j hj c hcm
      obtain ⟨v, hv, ht⟩ := selfJoinCommands_target e.Nick s j c hcm
      rw [ht]
      simpa using huniq j v hj hv
    rw [hsent]
    simp only [List.append_assoc, List.drop_left, List.filter_append]
    rw [filter_flatMap_nil _ _ _ (fun j hj => hother j (by
        have := (List.mem_range'_1.1 hj).2
        omega)),
      filter_flatMap_nil _ _ _ (fun j hj => hother j (by
        have := (List.mem_range'_1.1 hj).1
        omega))]
    by_cases hcond : ch.ManageWhiteList = true ∧ ch.WhiteListSelfJoin = true ∧
        e.Nick ∉ ch.WhiteListNicks ∧ occGet s k e.Nick = true
    · have h := hel.2 hcond
      simp [selfJoinCommands, h, hcond, Command.target]
    · have h : ¬ selfJoinEligible e.Nick ch (s.channelOccupancy[k]?) = true :=
        fun h => hcond (hel.1 h)
      rw [if_neg hcond]
      simp [selfJoinCommands, h]

/-- C12, a concrete instance: `bob`, tracked in `#test` and not on its allow-list
`alice`, sends `hello` to the bot. -/
theorem onPRIVMSG_selfJoin_witness :
    ∃ s1, onPRIVMSG sampleDeps (privmsgEvent "bob" "botnick" "hello")
        (testStateWith ["alice"] [("bob", true)]) = some s1 ∧
      whiteList s1 0 = ["alice"] ++ ["bob"] ∧
      s1.sent = [Command.Mode "#test" ["+e", "bob!*@*"]] :=
  have h := onPRIVMSG_selfJoin sampleDeps (privmsgEvent "bob" "botnick" "hello") "hello"
    (testStateWith ["alice"] [("bob", true)]) 0 (testChannel ["alice"])
    (by decide) (by decide) (by decide)
  h.imp fun _ hs => ⟨hs.1,
    (hs.2.1 ⟨by decide, by decide, by decide, by decide⟩).1,
    (hs.2.1 ⟨by decide, by decide, by decide, by decide⟩).2.trans (by decide)⟩

theorem forChannels_fixed {body : Nat → Channel → State → Option State} {s : State}
    (hbody : ∀ k v, s.conf.Channel[k]? = some v → body k v s = some s) :
    ∀ ks : List Nat, (∀ k ∈ ks, k < s.conf.Channel.length) →
      forChannels body ks s = some s := by
  intro ks
  induction ks with
  | nil => intro _; rfl
  | cons k ks ih =>
    intro hks
    have hk : k < s.conf.Channel.length := hks k (List.mem_cons_self _ _)
    have hv : s.conf.Channel[k]? = some s.conf.Channel[k] := List.getElem?_eq_getElem hk
    simp only [forChannels, hv, hbody k _ hv]
    exact ih (fun j hj => hks j (List.mem_cons_of_mem _ hj))

/-- C20: a direct message to the bot from `e.Nick` is handled (the handler returns),
and handling the same message again from the state reached returns that state
unchanged: on the second handling no allow-list changes, nothing is written and no
command is sent, in the channels where the first handling added the sender as in all
others. -/
theorem selfJoin_idempotent (d : Deps) (e : Event) (message : String) (s : State)
    (ha0 : e.Arguments[0]? = some s.conf.Nick) (ha1 : e.Arguments[1]? = some message) :
    ∃ s1, onPRIVMSG d e s = some s1 ∧ onPRIVMSG d e s1 = some s1 := by
  obtain ⟨s1, h1, _, h2, hocc, hnick, _⟩ := onPRIVMSG_direct_summary d e message s ha0 ha1
  refine ⟨s1, h1, ?_⟩
  have hbody : ∀ k v, s1.conf.Channel[k]? = some v → selfJoinBody d e k v s1 = some s1 := by
    intro k v hv
    rw [h2] at hv
    cases hv0 : s.conf.Channel[k]? with
    | none => rw [hv0] at hv; simp at hv
    | some v0 =>
      rw [hv0] at hv
      simp only [Option.map_some', Option.some.injEq] at hv
      have hcond : (v.ManageWhiteList && v.WhiteListSelfJoin && !v.protectedNick e.Nick &&
          occGet s1 k e.Nick) = false := by
        by_cases hel : selfJoinEligible e.Nick v0 (s.channelOccupancy[k]?) = true
        · have hp : v.protectedNick e.Nick = true := by
            rw [← hv, protectedNick_iff]
            simp [selfJoinChannel, hel, Channel.withNicks]
          simp [hp]
        · have hvv : v = v0 := by
            rw [← hv]
            simp [selfJoinChannel, hel]
          have ho : occGet s1 k e.Nick = occGet s k e.Nick := by
            unfold occGet
            rw [hocc]
          rw [hvv, ho]
          simpa [selfJoinEligible, occGet] using hel
      simp only [selfJoinBody, hcond]
      rfl
  have hloop : rangeChannels (selfJoinBody d e) s1 = some s1 :=
    forChannels_fixed hbody _ (fun k hk => List.mem_range.1 hk)
  have ha0' : e.Arguments[0]? = some s1.conf.Nick := by rw [hnick]; exact ha0
  simp only [onPRIVMSG, ha0', ha1, if_true, hloop, AdminREPL]
  split <;> rfl

/-- C20, a concrete instance: `bob`, tracked in `#test`, sends `hello` to the bot
twice; the first message adds him, the second changes nothing. -/
theorem selfJoin_idempotent_witness :
    ∃ s1, onPRIVMSG sampleDeps (privmsgEvent "bob" "botnick" "hello")
        (testStateWith ["alice"] [("bob", true)]) = some s1 ∧
      onPRIVMSG sampleDeps (privmsgEvent "bob" "botnick" "hello") s1 = some s1 :=
  selfJoin_idempotent sampleDeps (privmsgEvent "bob" "botnick" "hello") "hello"
    (testStateWith ["alice"] [("bob", true)]) (by decide) (by decide)

/-! ## Events for a channel that is not configured -/

theorem findChannelIdx_eq_none {name : String} {l : List Channel} :
    findChannelIdx name l = none ↔ ∀ ch ∈ l, ch.Name ≠ name := by
  induction l with
  | nil => simp [findChannelIdx]
  | cons v vs ih =>
    by_cases hv : name = v.Name
    · simp [findChannelIdx, hv]
    · have hv2 : ¬ v.Name = name := fun h => hv h.symm
      simp [findChannelIdx, hv, hv2, ih]

/-- C19: when no configured channel has the name `name`, `findChannel` returns nil and
the callbacks for a names-list reply, an end-of-names reply, a Join, a Part, a Kick and
a channel message naming that channel return the state as it was: no allow-list and no
occupancy entry changes, nothing is written and no command is sent. -/
theorem unresolved_channel_noop (d : Deps) (e : Event) (s : State) (name : String)
    (hno : ∀ ch ∈ s.conf.Channel, ch.Name ≠ name) :
    s.conf.findChannel name = none ∧
      (e.Arguments[2]? = some name → on353 e s = some s) ∧
      (e.Arguments[1]? = some name → on366 e s = some s) ∧
      (e.Arguments[0]? = some name → onJOIN d e s = some s) ∧
      (e.Arguments[0]? = some name → onPART e s = some s) ∧
      (∀ nick, e.Arguments[0]? = some name → e.Arguments[1]? = some nick →
        onKICK d e s = some s) ∧
      (∀ message, e.Arguments[0]? = some name → e.Arguments[1]? = some message →
        name ≠ s.conf.Nick → onPRIVMSG d e s = some s) := by
  have hf : s.conf.findChannel name = none := findChannelIdx_eq_none.2 hno
  refine ⟨hf, ?_, ?_, ?_, ?_, ?_, ?_⟩
  · intro ha
    simp only [on353, ha, hf]
  · intro ha
    simp only [on366, ha, hf]
  · intro ha
    simp only [onJOIN, ha, hf]
  · intro ha
    simp only [onPART, ha, hf]
  · intro nick ha0 ha1
    simp only [onKICK, ha0, ha1, hf]
  · intro message ha0 ha1 hne
    simp only [onPRIVMSG, ha0, ha1, hne, if_false, hf]

/-- C19, concrete instances: `bob` joins, and is later kicked from, `#other` while the
bot is configured for `#test` only. -/
theorem unresolved_channel_noop_witness :
    onJOIN sampleDeps (joinEvent "bob" "example.com" "#other")
        (testStateWith ["alice"] [("alice", true)])
      = some (testStateWith ["alice"] [("alice", true)]) ∧
    onKICK sampleDeps
        { Code := "KICK", Nick := "op", Host := "example.com", Source := "op!o@example.com",
          Arguments := ["#other", "bob"] }
        (testStateWith ["alice"] [("alice", true)])
      = some (testStateWith ["alice"] [("alice", true)]) :=
  ⟨(unresolved_channel_noop sampleDeps (joinEvent "bob" "example.com" "#other")
      (testStateWith ["alice"] [("alice", true)]) "#other" (by decide)).2.2.2.1 (by decide),
    (unresolved_channel_noop sampleDeps
      { Code := "KICK", Nick := "op", Host := "example.com", Source := "op!o@example.com",
        Arguments := ["#other", "bob"] }
      (testStateWith ["alice"] [("alice", true)]) "#other" (by decide)).2.2.2.2.2.1 "bob"
      (by decide) (by decide)⟩

/-! ## The grammar of the add and remove commands -/

theorem isNickChar_iff (c : Char) : isNickChar c = true ↔ IsTokenChar c := by
  simp only [isNickChar, IsTokenChar, Bool.or_eq_true, Bool.and_eq_true, decide_eq_true_eq,
    List.mem_cons, List.mem_singleton, List.not_mem_nil, or_false, or_assoc]

theorem isSpace_not_isNickChar {c : Char} (h : isSpace c = true) : isNickChar c = false := by
  simp only [isSpace, Bool.or_eq_true, decide_eq_true_eq] at h
  rcases h with (((h | h) | h) | h) | h <;> (subst h; decide)

theorem isNickChar_not_isSpace {c : Char} (h : isNickChar c = true) : isSpace c = false := by
  cases hs : isSpace c with
  | false => rfl
  | true => rw [isSpace_not_isNickChar hs] at h; cases h

theorem takeWhile_dropWhile_of_none {α : Type} (p : α → Bool) (l : List α)
    (h : ∀ a ∈ l, p a = false) : l.takeWhile p = [] ∧ l.dropWhile p = l := by
  cases l with
  | nil => exact ⟨rfl, rfl⟩
  | cons a as =>
    have ha := h a (List.mem_cons_self _ _)
    simp [List.takeWhile_cons, List.dropWhile_cons, ha]

theorem matchNickTail_iff (r tok : List Char) :
    matchNickTail r = some tok ↔
      ∃ w2, r = tok ++ w2 ∧ tok ≠ [] ∧ (∀ c ∈ tok, isNickChar c = true) ∧
        (∀ c ∈ w2, isSpace c = true) := by
  constructor
  · intro h
    unfold matchNickTail at h
    simp only at h
    split at h
    · rename_i hc
      simp only [Bool.and_eq_true, Bool.not_eq_true', List.all_eq_true] at hc
      cases h
      refine ⟨r.dropWhile isNickChar, (List.takeWhile_append_dropWhile _ _).symm, ?_,
        fun c hc2 => List.mem_takeWhile_imp hc2, hc.2⟩
      intro hnil
      rw [hnil] at hc
      simp at hc
    · cases h
  · rintro ⟨w2, rfl, hne, htok, hw2⟩
    have hw : ∀ a ∈ w2, isNickChar a = false := fun a ha => isSpace_not_isNickChar (hw2 a ha)
    have h1 : (tok ++ w2).takeWhile isNickChar = tok := by
      rw [List.takeWhile_append_of_pos htok, (takeWhile_dropWhile_of_none _ _ hw).1,
        List.append_nil]
    have h2 : (tok ++ w2).dropWhile isNickChar = w2 := by
      rw [List.dropWhile_append_of_pos htok, (takeWhile_dropWhile_of_none _ _ hw).2]
    unfold matchNickTail
    simp only [h1, h2]
    have hemp : tok.isEmpty = false := by
      cases tok with
      | nil => exact absurd rfl hne
      | cons _ _ => rfl
    have hall : w2.all isSpace = true := List.all_eq_true.2 hw2
    simp [hemp, hall]

theorem matchCmd_iff (kw message tok : List Char) :
    matchCmd kw message = some tok ↔
      ∃ w1 w2, message = kw ++ w1 ++ tok ++ w2 ∧ w1 ≠ [] ∧ (∀ c ∈ w1, isSpace c = true) ∧
        tok ≠ [] ∧ (∀ c ∈ tok, isNickChar c = true) ∧ (∀ c ∈ w2, isSpace c = true) := by
  constructor
  · intro h
    unfold matchCmd at h
    split at h
    · rename_i hpre
      rw [List.isPrefixOf_iff_prefix] at hpre
      obtain ⟨r, rfl⟩ := hpre
      simp only [List.drop_left] at h
      split at h
      · rename_i hlen
        obtain ⟨w2, hr1, hne, htok, hw2⟩ := (matchNickTail_iff _ _).1 h
        refine ⟨r.takeWhile isSpace, w2, ?_, ?_, fun c hc => List.mem_takeWhile_imp hc,
          hne, htok, hw2⟩
        · have := List.takeWhile_append_dropWhile isSpace r
          rw [hr1] at this
          rw [List.append_assoc, List.append_assoc, this]
        · intro hnil
          have := List.takeWhile_append_dropWhile isSpace r
          rw [hnil, List.nil_append] at this
          rw [this] at hlen
          exact Nat.lt_irrefl _ hlen
      · cases h
    · cases h
  · rintro ⟨w1, w2, rfl, hw1ne, hw1, hne, htok, hw2⟩
    have hpre : kw.isPrefixOf (kw ++ w1 ++ tok ++ w2) = true := by
      rw [List.isPrefixOf_iff_prefix]
      exact ⟨w1 ++ tok ++ w2, by simp only [List.append_assoc]⟩
    have hdrop : (kw ++ w1 ++ tok ++ w2).drop kw.length = w1 ++ (tok ++ w2) := by
      simp only [List.append_assoc, List.drop_left]
    have hdw : (w1 ++ (tok ++ w2)).dropWhile isSpace = tok ++ w2 := by
      rw [List.dropWhile_append_of_pos hw1]
      cases tok with
      | nil => exact absurd rfl hne
      | cons a as =>
        have ha : isSpace a = false := isNickChar_not_isSpace (htok a (List.mem_cons_self _ _))
        simp [List.dropWhile_cons, ha]
    have hlen : (tok ++ w2).length < (w1 ++ (tok ++ w2)).length := by
      cases w1 with
      | nil => exact absurd rfl hw1ne
      | cons a as => simp only [List.cons_append, List.length_cons, List.length_append]; omega
    unfold matchCmd
    simp only [hpre, if_true, hdrop, hdw, hlen]
    exact (matchNickTail_iff _ _).2 ⟨w2, rfl, hne, htok, hw2⟩

theorem map_mk_eq_some (o : Option (List Char)) (t : String) :
    o.map String.mk = some t ↔ o = some t.data := by
  cases o with
  | none => simp
  | some l =>
    simp only [Option.map_some', Option.some.injEq]
    constructor
    · intro h; rw [← h]
    · intro h; rw [h]

theorem add_cmd_iff (message t : String) :
    add_cmd message = some t ↔ IsCommand "add" t message := by
  unfold add_cmd IsCommand
  rw [map_mk_eq_some, matchCmd_iff]
  simp only [isNickChar_iff]

theorem remove_cmd_iff (message t : String) :
    remove_cmd message = some t ↔ IsCommand "remove" t message := by
  unfold remove_cmd IsCommand
  rw [map_mk_eq_some, matchCmd_iff]
  simp only [isNickChar_iff]

theorem isCommand_remove_not_add {t t1 message : String} (h : IsCommand "remove" t message) :
    ¬ IsCommand "add" t1 message := by
  obtain ⟨w1, w2, hm, _⟩ := h
  rintro ⟨v1, v2, hm2, _⟩
  rw [hm] at hm2
  simp only [List.append_assoc] at hm2
  have : ("remove".data ++ (w1 ++ (t.data ++ w2))).head? =
      ("add".data ++ (v1 ++ (t1.data ++ v2))).head? := by rw [hm2]
  simp at this

/-- C14: the text left after prefix stripping is classified as an add (respectively
remove) command with token `t` exactly when it is the keyword `add` (respectively
`remove`), one or more white-space characters, a non-empty `t` over the nickname
alphabet and zero or more white-space characters; `REPL` then adds (respectively
removes) `t` and sends the `+e` (respectively `-e`) request, and for every other text it
returns the state as it was: no allow-list changes, nothing is written, no command is
sent. -/
theorem command_grammar (d : Deps) (e : Event) (c : Nat) (s : State)
    (message0 message : String) (ch : Channel) (ha : e.Arguments[1]? = some message0)
    (hre : d.regexpReplace (nickPattern s.conf.Nick) message0 = some message)
    (hc : s.conf.Channel[c]? = some ch) :
    (∀ m t, add_cmd m = some t ↔ IsCommand "add" t m) ∧
      (∀ m t, remove_cmd m = some t ↔ IsCommand "remove" t m) ∧
      (∀ t, IsCommand "add" t message →
        REPL d e c s = some (send (addWhiteList d s c t).1
          (Command.Mode ch.Name ["+e", t ++ "!*@*"]))) ∧
      (∀ t, IsCommand "remove" t message →
        REPL d e c s = some (send (removeWhiteList d s c t).1
          (Command.Mode ch.Name ["-e", t ++ "!*@*"]))) ∧
      ((∀ t, ¬ IsCommand "add" t message) → (∀ t, ¬ IsCommand "remove" t message) →
        REPL d e c s = some s) := by
  refine ⟨add_cmd_iff, remove_cmd_iff, ?_, ?_, ?_⟩
  · intro t ht
    have h := (add_cmd_iff message t).2 ht
    simp only [REPL, ha, hre, hc, h]
  · intro t ht
    have h := (remove_cmd_iff message t).2 ht
    have hna : add_cmd message = none := by
      cases hadd : add_cmd message with
      | none => rfl
      | some t1 => exact absurd ((add_cmd_iff message t1).1 hadd) (isCommand_remove_not_add ht)
    simp only [REPL, ha, hre, hc, h, hna]
  · intro hna hnr
    have h1 : add_cmd message = none := by
      cases hadd : add_cmd message with
      | none => rfl
      | some t1 => exact absurd ((add_cmd_iff message t1).1 hadd) (hna t1)
    have h2 : remove_cmd message = none := by
      cases hrem : remove_cmd message with
      | none => rfl
      | some t1 => exact absurd ((remove_cmd_iff message t1).1 hrem) (hnr t1)
    simp only [REPL, ha, hre, hc, h1, h2]

/-- C14, a concrete instance: in `#test`, `botnick: add carol` is stripped to
`add carol`, which is the add command with token `carol`. -/
theorem command_grammar_witness :
    REPL sampleDeps (privmsgEvent "alice" "#test" "botnick: add carol") 0 (testState ["alice"])
      = some (send (addWhiteList sampleDeps (testState ["alice"]) 0 "carol").1
          (Command.Mode "#test" ["+e", "carol" ++ "!*@*"])) :=
  (command_grammar sampleDeps (privmsgEvent "alice" "#test" "botnick: add carol") 0
    (testState ["alice"]) "botnick: add carol" "add carol" (testChannel ["alice"])
    (by decide) (by decide) (by decide)).2.2.1 "carol"
    ⟨[' '], [], by decide, by decide, by decide, by decide,
      fun c hc => (isNickChar_iff c).1 (by revert c hc; decide), by decide⟩

/-! ## The bot's nick inside the regular expression -/

/-- C13, the code at the failing input: for the bot nick `botnick` the message
`botnick: add carol` in `#test` appends `carol` and sends one `+e` request, but for the
bot nick `a|b` the message `a|b: add carol`, of the same form, is stripped to
`|add carol`, so that nothing is added and nothing is sent; likewise for `remove`. -/
theorem REPL_unquoted_nick_command :
    (onPRIVMSG sampleDeps (privmsgEvent "alice" "#test" "botnick: add carol")
        (testStateNick "botnick" ["alice"])).map (fun s1 => (whiteList s1 0, s1.sent))
      = some (["alice", "carol"], [Command.Mode "#test" ["+e", "carol!*@*"]]) ∧
    hasPrefix "a|b: add carol" "a|b" = true ∧
    onPRIVMSG sampleDeps (privmsgEvent "alice" "#test" "a|b: add carol")
        (testStateNick "a|b" ["alice"]) = some (testStateNick "a|b" ["alice"]) ∧
    onPRIVMSG sampleDeps (privmsgEvent "alice" "#test" "a|b: remove alice")
        (testStateNick "a|b" ["alice"]) = some (testStateNick "a|b" ["alice"]) := by
  decide

/-- C18, the code at the failing inputs: the nick goes into the pattern unquoted.
For the nick `a|b` the pattern is an alternation and `a|b: add carol` is normalised to
`|add carol`, not to `add carol`; for the nick `[bot]` the brackets are a character set,
so `[bot]: add carol` is left as it is while `b: add carol`, which does not begin with
the nick, loses its prefix; for the nick `[z-a]` the pattern does not compile and `REPL`
aborts. -/
theorem nickPattern_unquoted :
    nickPattern "a|b" = "^\\s*a|b[[:punct:]]*\\s+" ∧
    goReplaceAll (nickPattern "a|b") "a|b: add carol" = some "|add carol" ∧
    goReplaceAll (nickPattern "[bot]") "[bot]: add carol" = some "[bot]: add carol" ∧
    goReplaceAll (nickPattern "[bot]") "b: add carol" = some "add carol" ∧
    goParse (nickPattern "[z-a]") = Parse.invalid ∧
    onPRIVMSG sampleDeps (privmsgEvent "alice" "#test" "[z-a]: add carol")
        (testStateNick "[z-a]" ["alice"]) = none := by
  decide

/-! ## Channels that do not manage their allow-list -/

/-- C15, the code at the failing inputs: on `#test` with `ManageWhiteList` unset and
allow-list `alice`, the change of nick of `alice` to `bob` rewrites the allow-list and
sends a `-e+e` request, the change of nick of the unprotected `dave` sends a `-e`
request, and the channel message `botnick: add carol` extends the allow-list and sends a
`+e` request. -/
theorem unmanaged_channel_changes :
    (onNICK sampleDeps (nickEvent "alice" "example.com" "bob") (unmanagedState ["alice"])).map
        (fun s1 => (whiteList s1 0, s1.sent))
      = some (["bob"], [Command.Mode "#test" ["-e+e", "alice!*@*", "bob!*@*"]]) ∧
    (onNICK sampleDeps (nickEvent "dave" "example.com" "erin") (unmanagedState ["alice"])).map
        (fun s1 => (whiteList s1 0, s1.sent))
      = some (["alice"], [Command.Mode "#test" ["-e", "dave!*@*"]]) ∧
    (onPRIVMSG sampleDeps (privmsgEvent "mallory" "#test" "botnick: add carol")
        (unmanagedState ["alice"])).map (fun s1 => (whiteList s1 0, s1.sent))
      = some (["alice", "carol"], [Command.Mode "#test" ["+e", "carol!*@*"]]) := by
  decide

/-! ## Names-list replies -/

/-- C17, the code at the failing input: from the names-list `@@bob ~carol a!b +dave`
for `#test` the callback records `bob`, `carol` and `b` (and `dave`), although `@bob`,
`~carol` and `a!b` are not nicknames over the nickname alphabet. -/
theorem on353_unanchored :
    (on353 (namesEvent "#test" "@@bob ~carol a!b +dave") (testState [])).map
        (fun s1 => (occGet s1 0 "bob", occGet s1 0 "carol", occGet s1 0 "b",
          occGet s1 0 "dave", occGet s1 0 "@bob", occGet s1 0 "a!b"))
      = some (true, true, true, true, false, false) := by
  decide

/-! ## Connection patterns -/

/-- C16, as stated, fails: under the glob semantics of the specification the pattern
`us?r@example.com` matches `user@example.com`, but `protectedConn` with the glob matcher
of the library is false for it. -/
theorem protectedConn_question_mark_counterexample :
    specGlob "us?r@example.com".data "user@example.com".data = true ∧
      Channel.protectedConn sampleDeps
        { testChannel [] with WhiteListConnection := ["us?r@example.com"] }
        "user@example.com" = false := by
  decide

/-! ## The glob matcher of the library -/

theorem splitStar_ne_nil (l : List Char) : splitStar l ≠ [] := by
  cases l with
  | nil => simp [splitStar]
  | cons c cs =>
    unfold splitStar
    split
    · simp
    · split <;> simp

theorem joinStar_cons_cons (c : Char) (w : List Char) (ws : List (List Char)) :
    joinStar ((c :: w) :: ws) = c :: joinStar (w :: ws) := by
  cases ws <;> simp [joinStar]

theorem joinStar_splitStar (l : List Char) : joinStar (splitStar l) = l := by
  induction l with
  | nil => simp [splitStar, joinStar]
  | cons c cs ih =>
    unfold splitStar
    by_cases hc : c = '*'
    · simp only [hc, if_true]
      cases hs : splitStar cs with
      | nil => exact absurd hs (splitStar_ne_nil cs)
      | cons q r =>
        rw [hs] at ih
        simp [joinStar, ih]
    · simp only [hc, if_false]
      cases hs : splitStar cs with
      | nil => exact absurd hs (splitStar_ne_nil cs)
      | cons w ws =>
        rw [hs] at ih
        simp only []
        rw [joinStar_cons_cons, ih]

theorem splitStar_star_free (l : List Char) : ∀ p ∈ splitStar l, '*' ∉ p := by
  induction l with
  | nil => simp [splitStar]
  | cons c cs ih =>
    unfold splitStar
    by_cases hc : c = '*'
    · simp only [hc, if_true, List.mem_cons]
      rintro p (rfl | hp)
      · simp
      · exact ih p hp
    · simp only [hc, if_false]
      cases hs : splitStar cs with
      | nil => exact absurd hs (splitStar_ne_nil cs)
      | cons w ws =>
        rw [hs] at ih
        simp only [List.mem_cons]
        rintro p (rfl | hp)
        · simp only [List.mem_cons, not_or]
          exact ⟨fun h => hc h.symm, ih w (List.mem_cons_self _ _)⟩
        · exact ih p (List.mem_cons_of_mem _ hp)

theorem starGlob_star (q s : List Char) :
    starGlob ('*' :: q) s = s.tails.any (fun t => starGlob q t) := by
  simp [starGlob]

theorem starGlob_star_iff (q s : List Char) :
    starGlob ('*' :: q) s = true ↔ ∃ t, t <:+ s ∧ starGlob q t = true := by
  rw [starGlob_star, List.any_eq_true]
  simp only [List.mem_tails]

theorem starGlob_star_mono {q t s : List Char} (h : starGlob ('*' :: q) t = true)
    (hts : t <:+ s) : starGlob ('*' :: q) s = true := by
  rw [starGlob_star_iff] at h ⊢
  obtain ⟨u, hu, hq⟩ := h
  exact ⟨u, hu.trans hts, hq⟩

theorem starGlob_append (p q : List Char) (hp : '*' ∉ p) (s : List Char) :
    starGlob (p ++ q) s = (p.isPrefixOf s && starGlob q (s.drop p.length)) := by
  induction p generalizing s with
  | nil => simp
  | cons c p ih =>
    have hc : ¬ c = '*' := fun h => hp (by simp [h])
    have hp2 : '*' ∉ p := fun h => hp (List.mem_cons_of_mem _ h)
    cases s with
    | nil => simp [starGlob, hc]
    | cons x xs =>
      simp only [List.cons_append, starGlob, hc, if_false, List.isPrefixOf,
        List.length_cons, List.drop_succ_cons]
      change (decide (c = x) && starGlob (p ++ q) xs) = _
      rw [ih hp2 xs]
      by_cases hx : c = x
      · simp [hx]
      · simp [hx]

theorem starGlob_star_free (p : List Char) (hp : '*' ∉ p) (s : List Char) :
    starGlob p s = true ↔ s = p := by
  induction p generalizing s with
  | nil => cases s <;> simp [starGlob]
  | cons c p ih =>
    have hc : ¬ c = '*' := fun h => hp (by simp [h])
    have hp2 : '*' ∉ p := fun h => hp (List.mem_cons_of_mem _ h)
    cases s with
    | nil => simp [starGlob, hc]
    | cons x xs =>
      simp only [starGlob, hc, if_false, Bool.and_eq_true, decide_eq_true_eq, ih hp2,
        List.cons.injEq]
      constructor
      · rintro ⟨h1, h2⟩; exact ⟨h1.symm, h2⟩
      · rintro ⟨h1, h2⟩; exact ⟨h1.symm, h2⟩

theorem starGlob_star_suffix (p : List Char) (hp : '*' ∉ p) (s : List Char) :
    starGlob ('*' :: p) s = p.isSuffixOf s := by
  rw [Bool.eq_iff_iff, starGlob_star_iff, List.isSuffixOf_iff_suffix]
  constructor
  · rintro ⟨t, ht, hq⟩
    rw [(starGlob_star_free p hp t).1 hq] at ht
    exact ht
  · intro h
    exact ⟨p, h, (starGlob_star_free p hp p).2 rfl⟩

theorem indexOfSub_zero_iff (p s : List Char) :
    indexOfSub p s = some 0 ↔ p.isPrefixOf s = true := by
  cases s with
  | nil => cases p <;> simp [indexOfSub, List.isPrefixOf]
  | cons c t =>
    unfold indexOfSub
    by_cases h : p.isPrefixOf (c :: t) = true
    · simp [h]
    · simp [h]

theorem indexOfSub_nil (s : List Char) : indexOfSub [] s = some 0 :=
  (indexOfSub_zero_iff [] s).2 (by simp [List.isPrefixOf])

/-- The search for the first occurrence of a part finds a match whenever there is one:
what follows a later occurrence also follows the first. -/
theorem starGlob_star_part (p q : List Char) (hp : '*' ∉ p) (s : List Char) :
    starGlob ('*' :: (p ++ '*' :: q)) s =
      match indexOfSub p s with
      | none => false
      | some i => starGlob ('*' :: q) (s.drop (i + p.length)) := by
  induction s with
  | nil =>
    rw [starGlob_star]
    simp only [List.tails, List.any_cons, List.any_nil, Bool.or_false]
    rw [starGlob_append p _ hp]
    cases p with
    | nil => simp [indexOfSub]
    | cons a as => simp [indexOfSub, List.isPrefixOf]
  | cons c t ih =>
    rw [starGlob_star, List.tails_cons, List.any_cons, ← starGlob_star, ih,
      starGlob_append p _ hp]
    by_cases hpre : p.isPrefixOf (c :: t) = true
    · have h0 : indexOfSub p (c :: t) = some 0 := (indexOfSub_zero_iff _ _).2 hpre
      rw [h0, hpre]
      simp only [Bool.true_and, Nat.zero_add]
      cases hrest : starGlob ('*' :: q) (List.drop p.length (c :: t)) with
      | true => simp
      | false =>
        simp only [Bool.false_or]
        cases hi : indexOfSub p t with
        | none => rfl
        | some i =>
          simp only []
          cases hlater : starGlob ('*' :: q) (List.drop (i + p.length) t) with
          | false => rfl
          | true =>
            have hsuf : List.drop (i + p.length) t <:+ List.drop p.length (c :: t) := by
              cases hl : p.length with
              | zero =>
                simp only [List.drop_zero, Nat.add_zero]
                exact (List.drop_suffix i t).trans (List.suffix_cons c t)
              | succ k =>
                simp only [List.drop_succ_cons]
                exact List.drop_suffix_drop_left t (by omega)
            rw [starGlob_star_mono hlater hsuf] at hrest
            cases hrest
    · have hpre2 : p.isPrefixOf (c :: t) = false := Bool.eq_false_iff.2 hpre
      have hidx : indexOfSub p (c :: t) = (indexOfSub p t).map (· + 1) := by
        simp [indexOfSub, hpre2]
      rw [hidx, hpre2]
      simp only [Bool.false_and, Bool.false_or]
      cases hi : indexOfSub p t with
      | none => rfl
      | some i =>
        simp only [Option.map_some']
        have : i + 1 + p.length = (i + p.length) + 1 := by omega
        rw [this, List.drop_succ_cons]

theorem globLoop_cons_cons (lg tg first : Bool) (part q : List Char) (r : List (List Char))
    (subj : List Char) :
    globLoop lg tg first (part :: q :: r) subj =
      match indexOfSub part subj with
      | none => false
      | some idx =>
        if first && !lg && idx != 0 then false
        else globLoop lg tg false (q :: r) (subj.drop (idx + part.length)) := by
  rw [globLoop]
  exact fun h => List.noConfusion h

/-- After the first part, the loop of the library decides the match of `*` followed by
the remaining parts. -/
theorem globLoop_rest (lg tg : Bool) (parts : List (List Char)) (hne : parts ≠ [])
    (hfree : ∀ p ∈ parts, '*' ∉ p) (htg : tg = true → parts.getLast? = some [])
    (subj : List Char) :
    globLoop lg tg false parts subj = starGlob ('*' :: joinStar parts) subj := by
  induction parts generalizing subj with
  | nil => exact absurd rfl hne
  | cons p rest ih =>
    cases rest with
    | nil =>
      have hp : '*' ∉ p := hfree p (by simp)
      simp only [globLoop, joinStar]
      rw [starGlob_star_suffix p hp]
      cases tg with
      | false => simp
      | true =>
        have := htg rfl
        simp only [List.getLast?_singleton, Option.some.injEq] at this
        subst this
        simp [List.isSuffixOf]
    | cons q r =>
      have hp : '*' ∉ p := hfree p (by simp)
      rw [globLoop_cons_cons, joinStar, starGlob_star_part p _ hp]
      cases indexOfSub p subj with
      | none => rfl
      | some idx =>
        simp only [Bool.false_and, Bool.false_eq_true, if_false]
        exact ih (by simp) (fun x hx => hfree x (List.mem_cons_of_mem _ hx))
          (fun h => by simpa [List.getLast?_cons_cons] using htg h) _

/-- The loop of the library, from the first part on, decides the match of the pattern
made of the parts. -/
theorem globLoop_first (lg tg : Bool) (p0 q : List Char) (r : List (List Char))
    (hfree : ∀ p ∈ p0 :: q :: r, '*' ∉ p) (hlg : lg = true → p0 = [])
    (htg : tg = true → (p0 :: q :: r).getLast? = some []) (subj : List Char) :
    globLoop lg tg true (p0 :: q :: r) subj = starGlob (joinStar (p0 :: q :: r)) subj := by
  have hp : '*' ∉ p0 := hfree p0 (by simp)
  have hrest : ∀ s, globLoop lg tg false (q :: r) s = starGlob ('*' :: joinStar (q :: r)) s :=
    fun s => globLoop_rest lg tg (q :: r) (by simp)
      (fun x hx => hfree x (List.mem_cons_of_mem _ hx))
      (fun h => by simpa [List.getLast?_cons_cons] using htg h) s
  rw [globLoop_cons_cons, joinStar]
  cases lg with
  | true =>
    have := hlg rfl
    subst this
    rw [indexOfSub_nil]
    simp only [Bool.not_true, Bool.and_false, Bool.false_and, Bool.false_eq_true, if_false,
      List.length_nil, Nat.add_zero, List.drop_zero, List.nil_append]
    exact hrest subj
  | false =>
    rw [starGlob_append p0 _ hp]
    by_cases hpre : p0.isPrefixOf subj = true
    · rw [(indexOfSub_zero_iff _ _).2 hpre, hpre]
      simp only [Bool.not_false, Bool.and_true, Bool.true_and, bne_self_eq_false,
        Bool.false_eq_true, if_false, Nat.zero_add]
      exact hrest _
    · have hpre2 : p0.isPrefixOf subj = false := Bool.eq_false_iff.2 hpre
      rw [hpre2]
      cases hi : indexOfSub p0 subj with
      | none => rfl
      | some idx =>
        have hidx : idx ≠ 0 := by
          intro h0
          subst h0
          exact hpre ((indexOfSub_zero_iff _ _).1 hi)
        simp [hidx]

theorem joinStar_head (p0 q : List Char) (r : List (List Char)) (hp : '*' ∉ p0)
    (h : (joinStar (p0 :: q :: r)).head? = some '*') : p0 = [] := by
  cases p0 with
  | nil => rfl
  | cons a as =>
    simp only [joinStar, List.cons_append, List.head?_cons, Option.some.injEq] at h
    exact absurd (by simp [h]) hp

theorem joinStar_getLast (parts : List (List Char)) (hne : parts ≠ [])
    (hfree : ∀ p ∈ parts, '*' ∉ p)
    (h : joinStar parts = [] ∨ (joinStar parts).getLast? = some '*') :
    parts.getLast? = some [] := by
  induction parts with
  | nil => exact absurd rfl hne
  | cons p rest ih =>
    cases rest with
    | nil =>
      simp only [joinStar] at h
      rcases h with h | h
      · simp [h]
      · exact absurd (List.mem_of_getLast?_eq_some h) (hfree p (by simp))
    | cons q r =>
      rw [List.getLast?_cons_cons]
      apply ih (by simp) (fun x hx => hfree x (List.mem_cons_of_mem _ hx))
      rcases h with h | h
      · simp [joinStar] at h
      · rw [joinStar, List.getLast?_append] at h
        cases hJ : joinStar (q :: r) with
        | nil => exact Or.inl rfl
        | cons a as =>
          right
          rw [hJ, List.getLast?_cons_cons] at h
          cases hl : (a :: as).getLast? with
          | none => exact absurd (List.getLast?_eq_none_iff.1 hl) (by simp)
          | some z =>
            rw [hl] at h
            exact h

/-- The matcher of the library decides glob matching with `*` as the only wildcard. -/
theorem goGlob_eq_starGlob (pattern subj : String) :
    goGlob pattern subj = starGlob pattern.data subj.data := by
  have hjoin := joinStar_splitStar pattern.data
  have hfree := splitStar_star_free pattern.data
  unfold goGlob
  by_cases h1 : pattern = ""
  · subst h1
    rw [if_pos rfl]
    cases subj with
    | mk l => cases l <;> simp [starGlob, String.ext_iff]
  · rw [if_neg h1]
    by_cases h2 : pattern = "*"
    · subst h2
      rw [if_pos rfl]
      exact ((starGlob_star_suffix [] (by simp) subj.data).trans (by simp [List.isSuffixOf])).symm
    · rw [if_neg h2]
      cases hs : splitStar pattern.data with
      | nil => exact absurd hs (splitStar_ne_nil _)
      | cons p0 rest =>
        rw [hs] at hjoin hfree
        cases rest with
        | nil =>
          rw [if_pos (show [p0].length = 1 from rfl)]
          simp only [joinStar] at hjoin
          have hp : '*' ∉ pattern.data := hjoin ▸ hfree p0 (by simp)
          rw [Bool.eq_iff_iff, starGlob_star_free _ hp, decide_eq_true_eq, String.ext_iff]
        | cons q r =>
          rw [if_neg (by simp)]
          rw [← hjoin]
          apply globLoop_first
          · exact hfree
          · intro h
            exact joinStar_head p0 q r (hfree p0 (by simp)) (by simpa using h)
          · intro h
            exact joinStar_getLast _ (by simp) hfree (Or.inr (by simpa using h))

/-- The function `starGlob` decides the relation `GlobMatch`. -/
theorem starGlob_iff_GlobMatch (p s : List Char) : starGlob p s = true ↔ GlobMatch p s := by
  constructor
  · intro h
    induction p generalizing s with
    | nil =>
      cases s with
      | nil => exact GlobMatch.nil
      | cons x xs => simp [starGlob] at h
    | cons c ps ih =>
      by_cases hc : c = '*'
      · subst hc
        obtain ⟨t, ⟨run, hrun⟩, ht⟩ := (starGlob_star_iff ps s).1 h
        rw [← hrun]
        exact GlobMatch.star ps run t (ih t ht)
      · cases s with
        | nil => simp [starGlob, hc] at h
        | cons x xs =>
          simp only [starGlob, hc, if_false, Bool.and_eq_true, decide_eq_true_eq] at h
          obtain ⟨hx, hr⟩ := h
          subst hx
          exact GlobMatch.char c ps xs hc (ih xs hr)
  · intro h
    induction h with
    | nil => rfl
    | char c ps xs hc _ ih => simp [starGlob, hc, ih]
    | star ps run rest _ ih => exact (starGlob_star_iff ps _).2 ⟨rest, ⟨run, rfl⟩, ih⟩

/-! ## Protection by connection -/

/-- C16, amended: with the glob matcher of the library, `protectedConn` is true exactly
when at least one pattern of `WhiteListConnection` matches the identity as a whole
string, where `*` matches any run of characters and every other character, `?`
included, matches only that same character (so the match is case-sensitive); it is
false for every identity when the list is empty; and when no pattern contains `*`, the
protected identities are exactly the patterns themselves. -/
theorem protectedConn_star_glob (d : Deps) (hG : d.Glob = goGlob) (c : Channel)
    (identity : String) :
    (c.protectedConn d identity = true ↔
        ∃ p ∈ c.WhiteListConnection, GlobMatch p.data identity.data) ∧
      (c.WhiteListConnection = [] → c.protectedConn d identity = false) ∧
      ((∀ p ∈ c.WhiteListConnection, '*' ∉ p.data) →
        (c.protectedConn d identity = true ↔ identity ∈ c.WhiteListConnection)) := by
  have hmain : c.protectedConn d identity = true ↔
      ∃ p ∈ c.WhiteListConnection, starGlob p.data identity.data = true := by
    simp only [Channel.protectedConn, List.any_eq_true, hG, goGlob_eq_starGlob]
  refine ⟨?_, ?_, ?_⟩
  · rw [hmain]
    constructor
    · rintro ⟨p, hp, h⟩
      exact ⟨p, hp, (starGlob_iff_GlobMatch _ _).1 h⟩
    · rintro ⟨p, hp, h⟩
      exact ⟨p, hp, (starGlob_iff_GlobMatch _ _).2 h⟩
  · intro h
    simp only [Channel.protectedConn, h, List.any_nil]
  · intro hfree
    rw [hmain]
    constructor
    · rintro ⟨p, hp, h⟩
      have : identity = p := String.ext ((starGlob_star_free _ (hfree p hp) _).1 h)
      rw [this]
      exact hp
    · intro h
      exact ⟨identity, h, (starGlob_star_free _ (hfree identity h) _).2 rfl⟩

/-- C16 amended, concrete instances: the pattern `*@example.com` protects
`user@example.com` (with `user` for the run of `*`), and neither `user@evil.com` nor
`user@Example.com`; the pattern `us?r@example.com`, which has no `*`, protects
`us?r@example.com` and not `user@example.com`; an empty list protects nobody. -/
theorem protectedConn_star_glob_witness :
    Channel.protectedConn sampleDeps
        { testChannel [] with WhiteListConnection := ["*@example.com"] }
        "user@example.com" = true ∧
      Channel.protectedConn sampleDeps
        { testChannel [] with WhiteListConnection := ["*@example.com"] }
        "user@evil.com" = false ∧
      Channel.protectedConn sampleDeps
        { testChannel [] with WhiteListConnection := ["*@example.com"] }
        "user@Example.com" = false ∧
      (Channel.protectedConn sampleDeps
        { testChannel [] with WhiteListConnection := ["us?r@example.com"] }
        "us?r@example.com" = true ↔ "us?r@example.com" ∈ ["us?r@example.com"]) ∧
      (Channel.protectedConn sampleDeps
        { testChannel [] with WhiteListConnection := ["us?r@example.com"] }
        "user@example.com" = true ↔ "user@example.com" ∈ ["us?r@example.com"]) ∧
      Channel.protectedConn sampleDeps (testChannel []) "user@example.com" = false :=
  ⟨(protectedConn_star_glob sampleDeps rfl
      { testChannel [] with WhiteListConnection := ["*@example.com"] }
      "user@example.com").1.2
      ⟨"*@example.com", by decide,
        GlobMatch.star _ "user".data _ ((starGlob_iff_GlobMatch _ _).1 (by decide))⟩,
    by decide, by decide,
    (protectedConn_star_glob sampleDeps rfl
      { testChannel [] with WhiteListConnection := ["us?r@example.com"] }
      "us?r@example.com").2.2 (by decide),
    (protectedConn_star_glob sampleDeps rfl
      { testChannel [] with WhiteListConnection := ["us?r@example.com"] }
      "user@example.com").2.2 (by decide),
    (protectedConn_star_glob sampleDeps rfl (testChannel []) "user@example.com").2.1 rfl⟩

end Tx
